import Mathlib

/-!
Shallow embedding of `shapenet`'s frustum-voxel pipeline
(`src/core/renderings/frustrum_voxels.py`) and of the bad-model registry
(`src/core/fixed_objs/__init__.py`), together with proofs settling the
frozen claims about them.

Modelling conventions:
* HDF5 attribute maps become `Option Nat` fields (`none` = attribute absent);
  `attrs.get(k, d)` becomes `Option.getD`, `attrs.setdefault(k, d)` becomes
  writing `some (o.getD d)`.
* The intermediate HDF5 dataset of shape `(n, n_renderings, capacity)` becomes
  a total function `Nat → Nat → List Nat` giving the byte row stored at each
  `(object, rendering)` cell, plus an `Option` shape record (`none` = dataset
  not yet created).
* Every persisted mutation of the store (an attribute write or a dataset slice
  assignment) emits the post-mutation store into a `trace`, so that temporal
  and crash-resume claims quantify over all on-disk states of a run.
* The external collaborators (`util3d` RLE codec, the frustum resampler, the
  camera/voxel data providers) are out of scope per the spec and enter as
  parameters: `enc i j` is the byte string `convert(vox_i, eye_i_j).rle_data()`
  (deterministic because `convert` and the codec are pure).
-/

namespace FrustrumVoxels

/-- A byte string (one RLE stream or one stored row). -/
abbrev Bytes := List Nat

/-- The intermediate (temp) HDF5 store: attributes `prog`, `max_len`,
`n_renderings` plus the single dataset `rle-pad-lzf_data`, whose shape is
`(n_objects, n_renderings, capacity)` once created.  `data i j` is the byte
row stored at cell `(i, j)`. -/
@[ext] structure TempStore where
  prog : Option Nat
  max_len : Option Nat
  n_renderings : Option Nat
  dataShape : Option (Nat × Nat × Nat)
  data : Nat → Nat → Bytes

/-- A freshly created (or not-yet-existing, `h5py` mode `'a'`) temp store:
no attributes, no dataset. -/
def emptyStore : TempStore :=
  { prog := none, max_len := none, n_renderings := none,
    dataShape := none, data := fun _ _ => [] }

/-- The external inputs of one accumulator invocation:
`n0 = len(camera_pos[cat_id])`, `n_renderings` from the render params,
`hasDataset = vox_manager.has_dataset()`, `(n, m) = rle_src.shape`, and
`enc i j = convert(RleVoxels(rle_src[i]), eye_group[i][j], ray_shape).rle_data()`
(the pure composite of decoding, the frustum transform and re-encoding). -/
structure Env where
  n0 : Nat
  n_renderings : Nat
  hasDataset : Bool
  n : Nat
  m : Nat
  enc : Nat → Nat → Bytes

/-- Fatal outcomes of the accumulator:
`noDataset` = `RuntimeError('No dataset')`;
`rowMismatch` = the failed `assert(n == n0)`;
`capacity dlen cap` = `ValueError('max_max_len exceeded. %d > %d')`;
`broadcast` = the `h5py` shape-mismatch error raised by assigning `dlen`
bytes into the `cap`-wide slice `rle_dst[i, j, :dlen]` when `dlen > cap`;
`shapeConflict` = `require_dataset` finding an existing dataset of a
different shape; `shrinkFail` = `_shrink_data` aborting (missing `max_len`
attribute or dataset, or `chunk_size == 0`). -/
inductive RunErr
  | noDataset
  | rowMismatch
  | capacity (dlen cap : Nat)
  | broadcast
  | shapeConflict
  | shrinkFail
deriving DecidableEq, Repr

/-- Result of (part of) an accumulator run: the sequence of persisted store
states after each mutation, the final persisted state, and the error if the
run died. -/
structure StepOut where
  trace : List TempStore
  state : TempStore
  err : Option RunErr

/-- The dataset slice assignment `rle_dst[i, j, :dlen] = data`: overwrite the
first `d.length` bytes of cell `(i, j)`, keeping the tail. -/
def writeEntry (s : TempStore) (i j : Nat) (d : Bytes) : TempStore :=
  { s with data := fun a b =>
      if a = i ∧ b = j then d ++ (s.data a b).drop d.length else s.data a b }

/-- One inner-loop body of `create_temp_frustrum_voxels` for cell `(i, j)`
with encoded bytes `d`:

    dlen = len(data)
    if dlen > max_len:
        attrs['max_len'] = dlen
        max_len = dlen
        if dlen > max_max_len:
            raise ValueError('max_max_len exceeded. %d > %d' % (dlen, max_max_len))
    rle_dst[i, j, :dlen] = data

Note the `max_len` attribute is persisted *before* the capacity test, and the
capacity test only runs inside the `dlen > max_len` branch. -/
def processPairT (cap : Nat) (d : Bytes) (i j : Nat) (s : TempStore) : StepOut :=
  let dlen := d.length
  if s.max_len.getD 0 < dlen then
    let s1 : TempStore := { s with max_len := some dlen }
    if cap < dlen then
      ⟨[s1], s1, some (.capacity dlen cap)⟩
    else
      let s2 := writeEntry s1 i j d
      ⟨[s1, s2], s2, none⟩
  else
    if cap < dlen then
      ⟨[], s, some .broadcast⟩
    else
      let s2 := writeEntry s i j d
      ⟨[s2], s2, none⟩

/-- The inner loop `for j in range(n_renderings)` of object `i`, over the
remaining rendering indices `js`. -/
def runPairsT (cap : Nat) (e : Nat → Bytes) (i : Nat) :
    List Nat → TempStore → StepOut
  | [], s => ⟨[], s, none⟩
  | j :: js, s =>
    let o := processPairT cap (e j) i j s
    match o.err with
    | some er => ⟨o.trace, o.state, some er⟩
    | none =>
      let o2 := runPairsT cap e i js o.state
      ⟨o.trace ++ o2.trace, o2.state, o2.err⟩

/-- The outer loop `for i in range(prog, n)` over the remaining object
indices `is`: run all renderings of object `i`, then commit
`attrs['prog'] = i + 1`. -/
def runObjectsT (env : Env) (cap : Nat) :
    List Nat → TempStore → StepOut
  | [], s => ⟨[], s, none⟩
  | i :: is_, s =>
    let o := runPairsT cap (env.enc i) i (List.range env.n_renderings) s
    match o.err with
    | some er => ⟨o.trace, o.state, some er⟩
    | none =>
      let sc : TempStore := { o.state with prog := some (i + 1) }
      let o2 := runObjectsT env cap is_ sc
      ⟨o.trace ++ sc :: o2.trace, o2.state, o2.err⟩

/-- `vox_dst.require_dataset(GROUP_KEY, shape, ...)`: create the dataset
(zero-filled) when absent, reuse it when present with the same shape, and
fail on a conflicting shape. -/
def requireDataset (s : TempStore) (shape : Nat × Nat × Nat) : Option TempStore :=
  match s.dataShape with
  | none => some { s with dataShape := some shape,
                          data := fun _ _ => List.replicate shape.2.2 0 }
  | some sh => if sh = shape then some s else none

/-- `create_temp_frustrum_voxels`, from the opened temp store `s` onwards:

    prog = attrs.get('prog', 0)
    if prog == n0: return temp_path
    attrs.setdefault('n_renderings', n_renderings)
    max_len = attrs.setdefault('max_len', 0)
    if not vox_manager.has_dataset(): raise RuntimeError('No dataset')
    n, m = rle_src.shape; max_max_len = m * 3
    assert(n == n0)
    rle_dst = vox_dst.require_dataset(GROUP_KEY, shape=(n, n_renderings, max_max_len), ...)
    for i in range(prog, n): ...  (see `runObjectsT`)
-/
def create_temp_frustrum_voxels (env : Env) (s : TempStore) : StepOut :=
  let prog := s.prog.getD 0
  if prog = env.n0 then ⟨[], s, none⟩
  else
    let s1 : TempStore :=
      { s with n_renderings := some (s.n_renderings.getD env.n_renderings) }
    let s2 : TempStore := { s1 with max_len := some (s1.max_len.getD 0) }
    if env.hasDataset = false then ⟨[s1, s2], s2, some .noDataset⟩
    else
      let cap := 3 * env.m
      if env.n ≠ env.n0 then ⟨[s1, s2], s2, some .rowMismatch⟩
      else
        match requireDataset s2 (env.n, env.n_renderings, cap) with
        | none => ⟨[s1, s2], s2, some .shapeConflict⟩
        | some s3 =>
          let o := runObjectsT env cap (List.range' prog (env.n - prog)) s3
          ⟨s1 :: s2 :: s3 :: o.trace, o.state, o.err⟩

/-- The same run interrupted immediately after the commit of object `k`:
identical to `create_temp_frustrum_voxels` except that the object loop stops
once `prog` reaches `k` (the process is killed between object commits). -/
def create_temp_upTo (env : Env) (k : Nat) (s : TempStore) : StepOut :=
  let prog := s.prog.getD 0
  if prog = env.n0 then ⟨[], s, none⟩
  else
    let s1 : TempStore :=
      { s with n_renderings := some (s.n_renderings.getD env.n_renderings) }
    let s2 : TempStore := { s1 with max_len := some (s1.max_len.getD 0) }
    if env.hasDataset = false then ⟨[s1, s2], s2, some .noDataset⟩
    else
      let cap := 3 * env.m
      if env.n ≠ env.n0 then ⟨[s1, s2], s2, some .rowMismatch⟩
      else
        match requireDataset s2 (env.n, env.n_renderings, cap) with
        | none => ⟨[s1, s2], s2, some .shapeConflict⟩
        | some s3 =>
          let o := runObjectsT env cap (List.range' prog (k - prog)) s3
          ⟨s1 :: s2 :: s3 :: o.trace, o.state, o.err⟩

/-! ### Shrink/Compactor (`_shrink_data`) -/

/-- The final fixed-width store written by `_shrink_data`: one dataset of
shape `(n_examples, n_renderings, max_len)`. -/
structure FinalStore where
  shape : Nat × Nat × Nat
  data : Nat → Nat → Bytes

/-- The start indices visited by `range(0, n, cs)` for `cs > 0`:
`[0, cs, 2*cs, ...]`, one per chunk. -/
def chunkStarts (n cs : Nat) : List Nat :=
  (List.range ((n + cs - 1) / cs)).map (fun t => t * cs)

/-- `_shrink_data(temp_path, dst_path, chunk_size)`:

    with h5py.File(temp_path, 'r') as src:            # read-only open
        max_len = src.attrs['max_len']
        src_group = src[GROUP_KEY]
        with h5py.File(dst_path, 'w') as dst:
            n_examples, n_renderings = src_group.shape[:2]
            dst_dataset = dst.create_dataset(GROUP_KEY,
                shape=(n_examples, n_renderings, max_len), ...)
            for i in range(0, n_examples, chunk_size):
                stop = min(i + chunk_size, n_examples)
                dst_dataset[i:stop] = src_group[i:stop, :, :max_len]

The source store is opened read-only and returned unchanged alongside the new
store.  `none` models the fatal cases: missing `max_len` attribute or dataset
(`KeyError`), or `chunk_size = 0` (`range` step error). -/
def _shrink_data (chunk_size : Nat) (src : TempStore) :
    Option (TempStore × FinalStore) :=
  match src.max_len, src.dataShape with
  | some max_len, some (n_examples, n_renderings, _cap) =>
    if chunk_size = 0 then none
    else
      let dst0 : FinalStore :=
        ⟨(n_examples, n_renderings, max_len), fun _ _ => List.replicate max_len 0⟩
      let dst := (chunkStarts n_examples chunk_size).foldl
        (fun acc i0 =>
          { acc with data := fun a b =>
              if i0 ≤ a ∧ a < min (i0 + chunk_size) n_examples
              then (src.data a b).take max_len
              else acc.data a b })
        dst0
      some (src, dst)
  | _, _ => none

/-! ### Concatenated-layout compactor (`_concat_data`) -/

/-- The alternate final store written by `_concat_data`: datasets `starts`
(int64, one entry per (object, rendering) pair plus one) and `values`
(uint8, `starts[-1]` entries, modelled as a function plus its length). -/
structure ConcatStore where
  starts : List Nat
  nvalues : Nat
  values : Nat → Nat

/-- The slice assignment `values[a : a + len(d)] = d`. -/
def writeSeg (v : Nat → Nat) (a : Nat) (d : Bytes) : Nat → Nat :=
  fun idx => if a ≤ idx ∧ idx < a + d.length then d.getD (idx - a) 0 else v idx

/-- The transfer loop of `_concat_data`: write each stream back-to-back
starting at offset `a` (the code addresses each write as
`values[starts[k] : starts[k+1]]`; since `starts[k+1] = starts[k] + len`,
the running offset coincides with `starts[k]`). -/
def writeAll (a : Nat) (v : Nat → Nat) : List Bytes → (Nat → Nat)
  | [] => v
  | d :: ds => writeAll (a + d.length) (writeSeg v a d) ds

/-- The padding-stripped streams `rle.remove_length_padding(src_group[i][j])`
in loop order (`for i in range(n_examples): for j in range(n_renderings)`). -/
def stripRows (strip : Bytes → Bytes) (src : TempStore) (n r : Nat) :
    List Bytes :=
  (List.range n).flatMap (fun i => (List.range r).map (fun j => strip (src.data i j)))

/-- `_concat_data(temp_path, dst_path)`: compute `starts` as the running sums
of the stripped stream lengths (`starts[0] = 0`), create `values` of shape
`(starts[-1],)`, then transfer every stream into its slice.
`strip` is `util3d.voxel.rle.remove_length_padding` (external codec).
`none` models the `KeyError` when the dataset is absent. -/
def _concat_data (strip : Bytes → Bytes) (src : TempStore) : Option ConcatStore :=
  match src.dataShape with
  | some (n_examples, n_renderings, _cap) =>
    let rows := stripRows strip src n_examples n_renderings
    let starts := List.scanl (· + ·) 0 (rows.map List.length)
    let nvalues := starts.getLast?.getD 0
    let values := writeAll 0 (fun _ => 0) rows
    some ⟨starts, nvalues, values⟩
  | none => none

/-! ### Pipeline Orchestrator (`create_frustrum_voxels`) -/

/-- The world the orchestrator acts on: the file at the final destination
path (`none` = absent) and the temp store at the temp path (`emptyStore` =
absent, since mode `'a'` creates it). -/
structure World where
  final : Option FinalStore
  temp : TempStore

/-- `create_frustrum_voxels(render_manager, voxel_config, out_dim, cat_id)`:

    dst_path = _get_frustrum_voxels_path(..., code=None, ...)
    if os.path.isfile(dst_path):
        print('Already present.')
        return
    temp_path = create_temp_frustrum_voxels(...)
    _shrink_data(temp_path, dst_path)
-/
def create_frustrum_voxels (env : Env) (w : World) : World × Option RunErr :=
  if w.final.isSome then (w, none)
  else
    let o := create_temp_frustrum_voxels env w.temp
    match o.err with
    | some er => ({ w with temp := o.state }, some er)
    | none =>
      match _shrink_data 100 o.state with
      | none => ({ w with temp := o.state }, some .shrinkFail)
      | some (t2, dst) => ({ final := some dst, temp := t2 }, none)

/-! ### Frustum Transform (`convert`) -/

/-- A camera eye position. -/
abbrev Vec3 := ℚ × ℚ × ℚ

/-- A dense 3-D value grid (indexing is total; cells outside the real shape
are irrelevant to the claims). -/
abbrev Grid3 := Nat → Nat → Nat → ℚ

/-- A 3-D boolean mask. -/
abbrev Mask3 := Nat → Nat → Nat → Bool

/-- The external `util3d` primitives used by `convert`, per the spec treated
as pure functions with documented signatures: the Euclidean norm used by
`np.linalg.norm`, `get_eye_to_world_transform` producing `(R, t)`, and
`voxel_values_to_frustrum(dense, R, t, f, z_near, z_far, ray_shape,
include_corners)` producing `(frust, inside)`. -/
structure Util3d where
  norm : Vec3 → ℚ
  get_eye_to_world_transform : Vec3 → (Fin 3 → Fin 3 → ℚ) × Vec3
  voxel_values_to_frustrum : Grid3 → (Fin 3 → Fin 3 → ℚ) → Vec3 → ℚ → ℚ → ℚ →
    Nat × Nat × Nat → Bool → Grid3 × Mask3

/-- The input voxel grid as seen by `convert`: `dim1` is the extent of axis 1
(the axis reversed by `dense_data[:, -1::-1]`). -/
structure VoxelGrid where
  dim1 : Nat
  dense_data : Grid3

/-- The module-level field-of-view constant `f = 32 / 35`. -/
def f : ℚ := 32 / 35

/-- `convert(vox, eye, ray_shape)`:

    dense_data = vox.dense_data()
    dense_data = dense_data[:, -1::-1]
    n = np.linalg.norm(eye)
    R, t = get_eye_to_world_transform(eye)
    z_near = n - 0.5
    z_far = z_near + 1
    frust, inside = voxel_values_to_frustrum(
        dense_data, R, t, f, z_near, z_far, ray_shape, include_corners=False)
    frust[np.logical_not(inside)] = 0
    frust = frust[:, -1::-1]
    return DenseVoxels(frust)
-/
def convert (u : Util3d) (vox : VoxelGrid) (eye : Vec3)
    (ray_shape : Nat × Nat × Nat) : Grid3 :=
  let dense_data := vox.dense_data
  let dense_flipped : Grid3 := fun x y z => dense_data x (vox.dim1 - 1 - y) z
  let n := u.norm eye
  let Rt := u.get_eye_to_world_transform eye
  let z_near := n - 1/2
  let z_far := z_near + 1
  let fi := u.voxel_values_to_frustrum dense_flipped Rt.1 Rt.2 f z_near z_far
    ray_shape false
  let frust : Grid3 := fun x y z => if fi.2 x y z then fi.1 x y z else 0
  fun x y z => frust x (ray_shape.2.1 - 1 - y) z

end FrustrumVoxels

namespace FixedObjs

/-! ### Bad-model registry (`src/core/fixed_objs/__init__.py`) -/

/-- A Python value that is either a string or a tuple of strings, as stored
in the `_bad_ids` registry (the registered entry is a parenthesised string,
not a 1-tuple). -/
inductive PyStrOrTuple
  | str (s : List Char)
  | tuple (elems : List (List Char))

/-- `_bad_ids = {'02958343': ('f9c1d7748c15499c6f2bd1c4e9adb41')}` — the
parentheses do not make a tuple, so the value is the plain string. -/
def _bad_ids : List (List Char × PyStrOrTuple) :=
  [("02958343".toList, .str "f9c1d7748c15499c6f2bd1c4e9adb41".toList)]

/-- Python `x in v`: substring containment for a string, element membership
for a tuple. -/
def pyIn (x : List Char) : PyStrOrTuple → Bool
  | .str s => decide (x <:+: s)
  | .tuple l => decide (x ∈ l)

/-- `get_bad_model_ids(cat_id)` for a concrete (non-`None`) category:
`_bad_ids.get(cat_id, ())`.  (The `cat_id is None` branch returns a copy of
the whole dict and is not used by `is_bad_obj`.) -/
def get_bad_model_ids (cat_id : List Char) : PyStrOrTuple :=
  (_bad_ids.lookup cat_id).getD (.tuple [])

/-- `is_bad_obj(cat_id, example_id) = example_id in get_bad_model_ids(cat_id)`. -/
def is_bad_obj (cat_id example_id : List Char) : Bool :=
  pyIn example_id (get_bad_model_ids cat_id)

end FixedObjs

namespace FrustrumVoxels

/-- The last element of `s :: t` (the state a run segment ends in when `s` is
the state it started from and `t` its emitted trace). -/
def lastOf (s : TempStore) (t : List TempStore) : TempStore :=
  t.getLast?.getD s

/-- The relation between consecutive persisted states of a run: `max_len`
never decreases, `prog` never decreases, and `prog` grows by at most one. -/
def stepRel (a b : TempStore) : Prop :=
  a.max_len.getD 0 ≤ b.max_len.getD 0 ∧
  a.prog.getD 0 ≤ b.prog.getD 0 ∧
  b.prog.getD 0 ≤ a.prog.getD 0 + 1

/-- The committed-rows invariant of C1: every object row strictly below
`prog` holds, for every rendering, the encoded bytes zero-padded to the
dataset capacity. -/
def committedComplete (env : Env) (cap : Nat) (s' : TempStore) : Prop :=
  ∀ a b, a < s'.prog.getD 0 → b < env.n_renderings →
    s'.data a b = env.enc a b ++ List.replicate (cap - (env.enc a b).length) 0 ∧
    (env.enc a b).length ≤ cap

/-- The maximum encoded RLE length over all (object, rendering) pairs
(`0` when there are none). -/
def maxEncLen (env : Env) : Nat :=
  ((List.range env.n0).flatMap fun i =>
    (List.range env.n_renderings).map fun j => (env.enc i j).length).foldl max 0

/-- The fresh store right after the attribute `setdefault`s and
`require_dataset` of a run started on an empty temp store. -/
def s3e (env : Env) : TempStore :=
  { prog := none, max_len := some 0, n_renderings := some env.n_renderings,
    dataShape := some (env.n, env.n_renderings, 3 * env.m),
    data := fun _ _ => List.replicate (3 * env.m) 0 }

/-- An accumulator environment whose source dataset is missing
(`vox_manager.has_dataset()` is false). -/
def envNoData : Env :=
  { n0 := 1, n_renderings := 1, hasDataset := false, n := 1, m := 1,
    enc := fun _ _ => [] }

/-- An environment whose single encoding fits in the capacity bound. -/
def envOk : Env :=
  { n0 := 1, n_renderings := 1, hasDataset := true, n := 1, m := 1,
    enc := fun _ _ => [7] }

/-- An environment producing a single encoding of length 4, above the
capacity bound `3 * m = 3`. -/
def envOverCap : Env :=
  { n0 := 1, n_renderings := 1, hasDataset := true, n := 1, m := 1,
    enc := fun _ _ => [1, 2, 3, 4] }

/-- A trivially well-formed final store used by orchestrator witnesses. -/
def finalStore0 : FinalStore := ⟨(0, 0, 0), fun _ _ => []⟩

/-- A small synthetic intermediate store with `max_len = 2`, three objects,
one rendering, capacity 4. -/
def srcShrinkW : TempStore :=
  { prog := none, max_len := some 2, n_renderings := none,
    dataShape := some (3, 1, 4), data := fun i j => [i + j, 1, 2, 3] }

/-- A small synthetic store for the concat compactor: two objects, two
renderings, capacity 3. -/
def srcConcatW : TempStore :=
  { prog := none, max_len := some 2, n_renderings := none,
    dataShape := some (2, 2, 3), data := fun i j => [i, j, 0] }

/-! ### Helper lemmas about the accumulator loops -/

lemma processPairT_err_cases {cap : Nat} {d : Bytes} {i j : Nat} {s : TempStore}
    {er : RunErr} (h : (processPairT cap d i j s).err = some er) :
    er = .capacity d.length cap ∨ er = .broadcast := by
  unfold processPairT at h
  dsimp only at h
  split at h
  · split at h
    · simp at h
      exact Or.inl h.symm
    · simp at h
  · split at h
    · simp at h
      exact Or.inr h.symm
    · simp at h

lemma processPairT_err_none_iff (cap : Nat) (d : Bytes) (i j : Nat)
    (s : TempStore) :
    (processPairT cap d i j s).err = none ↔ d.length ≤ cap := by
  unfold processPairT
  dsimp only
  split <;> split <;> simp <;> omega

lemma runPairsT_err_cases {cap : Nat} {e : Nat → Bytes} {i : Nat}
    {js : List Nat} {s : TempStore} {er : RunErr}
    (h : (runPairsT cap e i js s).err = some er) :
    (∃ d c, er = .capacity d c) ∨ er = .broadcast := by
  induction js generalizing s with
  | nil => simp [runPairsT] at h
  | cons j js ih =>
    unfold runPairsT at h
    dsimp only at h
    rcases hp : (processPairT cap (e j) i j s).err with _ | er2
    · rw [hp] at h
      exact ih h
    · rw [hp] at h
      simp at h
      rcases processPairT_err_cases hp with h2 | h2
      · exact Or.inl ⟨_, _, h ▸ h2⟩
      · exact Or.inr (h ▸ h2)

lemma runObjectsT_err_cases {env : Env} {cap : Nat} {l : List Nat}
    {s : TempStore} {er : RunErr}
    (h : (runObjectsT env cap l s).err = some er) :
    (∃ d c, er = .capacity d c) ∨ er = .broadcast := by
  induction l generalizing s with
  | nil => simp [runObjectsT] at h
  | cons i l ih =>
    unfold runObjectsT at h
    dsimp only at h
    rcases hp : (runPairsT cap (env.enc i) i (List.range env.n_renderings) s).err
      with _ | er2
    · rw [hp] at h
      exact ih h
    · rw [hp] at h
      simp at h
      exact h ▸ runPairsT_err_cases hp

lemma runPairsT_success_len {cap : Nat} {e : Nat → Bytes} {i : Nat}
    {js : List Nat} {s : TempStore}
    (h : (runPairsT cap e i js s).err = none) :
    ∀ j ∈ js, (e j).length ≤ cap := by
  induction js generalizing s with
  | nil => simp
  | cons j js ih =>
    unfold runPairsT at h
    dsimp only at h
    rcases hp : (processPairT cap (e j) i j s).err with _ | er2
    · rw [hp] at h
      intro b hb
      rcases List.mem_cons.1 hb with rfl | hb2
      · exact (processPairT_err_none_iff cap (e b) i b s).1 hp
      · exact ih h b hb2
    · rw [hp] at h
      simp at h

lemma runObjectsT_success_len {env : Env} {cap : Nat} {l : List Nat}
    {s : TempStore} (h : (runObjectsT env cap l s).err = none) :
    ∀ i ∈ l, ∀ j ∈ List.range env.n_renderings, (env.enc i j).length ≤ cap := by
  induction l generalizing s with
  | nil => simp
  | cons i l ih =>
    unfold runObjectsT at h
    dsimp only at h
    rcases hp : (runPairsT cap (env.enc i) i (List.range env.n_renderings) s).err
      with _ | er2
    · rw [hp] at h
      intro a ha
      rcases List.mem_cons.1 ha with rfl | ha2
      · exact runPairsT_success_len hp
      · exact ih h a ha2
    · rw [hp] at h
      simp at h

/-! ### Trace machinery: last state of a trace and the per-mutation relation -/

@[simp] lemma lastOf_nil (s : TempStore) : lastOf s [] = s := rfl

lemma lastOf_cons (s a : TempStore) (t : List TempStore) :
    lastOf s (a :: t) = lastOf a t := by
  cases t with
  | nil => rfl
  | cons b t =>
    unfold lastOf
    rw [List.getLast?_cons_cons]
    obtain ⟨x, hx⟩ := Option.isSome_iff_exists.1
      (List.getLast?_isSome.2 (List.cons_ne_nil b t))
    rw [hx]
    rfl

lemma lastOf_append (s : TempStore) (t1 t2 : List TempStore) :
    lastOf s (t1 ++ t2) = lastOf (lastOf s t1) t2 := by
  induction t1 generalizing s with
  | nil => rfl
  | cons a t1 ih => rw [List.cons_append, lastOf_cons, lastOf_cons, ih]

lemma lastOf_mem (s : TempStore) (t : List TempStore) :
    lastOf s t ∈ s :: t := by
  induction t generalizing s with
  | nil => simp
  | cons a t ih =>
    rw [lastOf_cons]
    rcases List.mem_cons.1 (ih a) with h | h
    · simp [h]
    · simp [List.mem_cons.2 (Or.inr h)]

lemma stepRel_refl (a : TempStore) : stepRel a a :=
  ⟨le_refl _, le_refl _, Nat.le_succ _⟩

@[simp] lemma writeEntry_prog (s : TempStore) (i j : Nat) (d : Bytes) :
    (writeEntry s i j d).prog = s.prog := rfl

@[simp] lemma writeEntry_max_len (s : TempStore) (i j : Nat) (d : Bytes) :
    (writeEntry s i j d).max_len = s.max_len := rfl

@[simp] lemma writeEntry_n_renderings (s : TempStore) (i j : Nat) (d : Bytes) :
    (writeEntry s i j d).n_renderings = s.n_renderings := rfl

@[simp] lemma writeEntry_dataShape (s : TempStore) (i j : Nat) (d : Bytes) :
    (writeEntry s i j d).dataShape = s.dataShape := rfl

lemma writeEntry_data (s : TempStore) (i j : Nat) (d : Bytes) (a b : Nat) :
    (writeEntry s i j d).data a b =
      if a = i ∧ b = j then d ++ (s.data a b).drop d.length else s.data a b := rfl

/-! ### Per-pair step lemmas -/

lemma processPairT_state_prog (cap : Nat) (d : Bytes) (i j : Nat) (s : TempStore) :
    (processPairT cap d i j s).state.prog = s.prog := by
  unfold processPairT
  dsimp only
  split <;> split <;> rfl

lemma processPairT_trace_prog (cap : Nat) (d : Bytes) (i j : Nat) (s : TempStore) :
    ∀ s' ∈ (processPairT cap d i j s).trace, s'.prog = s.prog := by
  unfold processPairT
  dsimp only
  split <;> split <;> intro s' hs' <;> simp at hs' <;>
    first
    | (rcases hs' with rfl | rfl <;> rfl)
    | (subst hs'; rfl)

lemma processPairT_state_n_renderings (cap : Nat) (d : Bytes) (i j : Nat)
    (s : TempStore) :
    (processPairT cap d i j s).state.n_renderings = s.n_renderings := by
  unfold processPairT
  dsimp only
  split <;> split <;> rfl

lemma processPairT_state_dataShape (cap : Nat) (d : Bytes) (i j : Nat)
    (s : TempStore) :
    (processPairT cap d i j s).state.dataShape = s.dataShape := by
  unfold processPairT
  dsimp only
  split <;> split <;> rfl

lemma processPairT_maxlen_cases (cap : Nat) (d : Bytes) (i j : Nat)
    (s : TempStore) :
    (processPairT cap d i j s).state.max_len = s.max_len ∨
    (processPairT cap d i j s).state.max_len = some d.length := by
  unfold processPairT
  dsimp only
  split <;> split
  · exact Or.inr rfl
  · exact Or.inr rfl
  · exact Or.inl rfl
  · exact Or.inl rfl

lemma processPairT_maxlen_getD (cap : Nat) (d : Bytes) (i j : Nat)
    (s : TempStore) :
    (processPairT cap d i j s).state.max_len.getD 0 =
      max (s.max_len.getD 0) d.length := by
  unfold processPairT
  dsimp only
  split
  · rename_i hml
    split
    · show (some d.length).getD 0 = max (s.max_len.getD 0) d.length
      simp only [Option.getD_some]
      omega
    · show (some d.length).getD 0 = max (s.max_len.getD 0) d.length
      simp only [Option.getD_some]
      omega
  · rename_i hml
    split
    · show s.max_len.getD 0 = max (s.max_len.getD 0) d.length
      omega
    · show s.max_len.getD 0 = max (s.max_len.getD 0) d.length
      omega

lemma processPairT_success_data (cap : Nat) (d : Bytes) (i j : Nat)
    (s : TempStore) (h : (processPairT cap d i j s).err = none) (a b : Nat) :
    (processPairT cap d i j s).state.data a b =
      if a = i ∧ b = j then d ++ (s.data a b).drop d.length else s.data a b := by
  unfold processPairT at *
  dsimp only at h ⊢
  split
  · split
    · rename_i h1 h2
      rw [if_pos h1, if_pos h2] at h
      simp at h
    · exact writeEntry_data _ i j d a b
  · split
    · rename_i h1 h2
      rw [if_neg h1, if_pos h2] at h
      simp at h
    · exact writeEntry_data _ i j d a b

lemma processPairT_trace_data (cap : Nat) (d : Bytes) (i j : Nat) (s : TempStore) :
    ∀ s' ∈ (processPairT cap d i j s).trace, ∀ a b, ¬(a = i ∧ b = j) →
      s'.data a b = s.data a b := by
  unfold processPairT
  dsimp only
  split <;> split <;> intro s' hs' a b hab <;> simp at hs'
  · subst hs'; rfl
  · rcases hs' with rfl | rfl
    · rfl
    · rw [writeEntry_data, if_neg hab]
  · subst hs'
    rw [writeEntry_data, if_neg hab]

lemma processPairT_last (cap : Nat) (d : Bytes) (i j : Nat) (s : TempStore) :
    (processPairT cap d i j s).state = lastOf s (processPairT cap d i j s).trace := by
  unfold processPairT
  dsimp only
  split <;> split <;> rfl

lemma processPairT_chain (cap : Nat) (d : Bytes) (i j : Nat) (s : TempStore) :
    List.Chain' stepRel (s :: (processPairT cap d i j s).trace) := by
  unfold processPairT
  dsimp only
  split
  · rename_i hml
    have h1 : stepRel s { s with max_len := some d.length } := by
      refine ⟨?_, le_refl _, Nat.le_succ _⟩
      show s.max_len.getD 0 ≤ d.length
      omega
    split
    · exact List.chain'_pair.2 h1
    · exact List.chain'_cons.2
        ⟨h1, List.chain'_pair.2 (stepRel_refl { s with max_len := some d.length })⟩
  · split
    · simp
    · exact List.chain'_pair.2 (stepRel_refl s)

/-- Data is untouched when a pair step fails (the capacity branch only wrote
the `max_len` attribute; the broadcast branch wrote nothing). -/
lemma processPairT_err_data {cap : Nat} {d : Bytes} {i j : Nat} {s : TempStore}
    {er : RunErr} (h : (processPairT cap d i j s).err = some er) :
    (processPairT cap d i j s).state.data = s.data := by
  unfold processPairT at *
  dsimp only at h ⊢
  split at h
  · split at h
    · rename_i h1 h2
      rw [if_pos h1, if_pos h2]
    · simp at h
  · split at h
    · rename_i h1 h2
      rw [if_neg h1, if_pos h2]
    · simp at h

/-! ### Inner-loop (renderings) lemmas -/

/-- Chains compose along a run segment whose continuation starts at the last
state of the first segment. -/
lemma chain_lastOf_append {R : TempStore → TempStore → Prop} (s : TempStore)
    (t1 t2 : List TempStore)
    (h1 : List.Chain' R (s :: t1)) (h2 : List.Chain' R (lastOf s t1 :: t2)) :
    List.Chain' R (s :: (t1 ++ t2)) := by
  induction t1 generalizing s with
  | nil => simpa using h2
  | cons a t1 ih =>
    rw [lastOf_cons] at h2
    rcases List.chain'_cons.1 h1 with ⟨hsa, h1'⟩
    exact List.chain'_cons.2 ⟨hsa, ih a h1' h2⟩

lemma runPairsT_last (cap : Nat) (e : Nat → Bytes) (i : Nat) :
    ∀ (js : List Nat) (s : TempStore),
    (runPairsT cap e i js s).state = lastOf s (runPairsT cap e i js s).trace := by
  intro js
  induction js with
  | nil => intro s; rfl
  | cons j js ih =>
    intro s
    unfold runPairsT
    dsimp only
    rcases hp : (processPairT cap (e j) i j s).err with _ | er
    · dsimp only
      rw [ih, lastOf_append, ← processPairT_last]
    · dsimp only
      exact processPairT_last cap (e j) i j s

lemma runPairsT_chain (cap : Nat) (e : Nat → Bytes) (i : Nat) :
    ∀ (js : List Nat) (s : TempStore),
    List.Chain' stepRel (s :: (runPairsT cap e i js s).trace) := by
  intro js
  induction js with
  | nil => intro s; simp [runPairsT]
  | cons j js ih =>
    intro s
    unfold runPairsT
    dsimp only
    rcases hp : (processPairT cap (e j) i j s).err with _ | er
    · dsimp only
      refine chain_lastOf_append s _ _ (processPairT_chain cap (e j) i j s) ?_
      rw [← processPairT_last]
      exact ih _
    · dsimp only
      exact processPairT_chain cap (e j) i j s

lemma runPairsT_state_attrs (cap : Nat) (e : Nat → Bytes) (i : Nat) :
    ∀ (js : List Nat) (s : TempStore),
    (runPairsT cap e i js s).state.prog = s.prog ∧
    (runPairsT cap e i js s).state.n_renderings = s.n_renderings ∧
    (runPairsT cap e i js s).state.dataShape = s.dataShape := by
  intro js
  induction js with
  | nil => intro s; exact ⟨rfl, rfl, rfl⟩
  | cons j js ih =>
    intro s
    unfold runPairsT
    dsimp only
    rcases hp : (processPairT cap (e j) i j s).err with _ | er
    · dsimp only
      refine ⟨?_, ?_, ?_⟩
      · rw [(ih _).1, processPairT_state_prog]
      · rw [(ih _).2.1, processPairT_state_n_renderings]
      · rw [(ih _).2.2, processPairT_state_dataShape]
    · dsimp only
      exact ⟨processPairT_state_prog .., processPairT_state_n_renderings ..,
        processPairT_state_dataShape ..⟩

lemma runPairsT_trace_prog (cap : Nat) (e : Nat → Bytes) (i : Nat) :
    ∀ (js : List Nat) (s : TempStore),
    ∀ s' ∈ (runPairsT cap e i js s).trace, s'.prog = s.prog := by
  intro js
  induction js with
  | nil => intro s s' hs'; simp [runPairsT] at hs'
  | cons j js ih =>
    intro s s' hs'
    unfold runPairsT at hs'
    dsimp only at hs'
    rcases hp : (processPairT cap (e j) i j s).err with _ | er
    · rw [hp] at hs'
      dsimp only at hs'
      rcases List.mem_append.1 hs' with h | h
      · exact processPairT_trace_prog cap (e j) i j s s' h
      · rw [ih _ _ h, processPairT_state_prog]
    · rw [hp] at hs'
      dsimp only at hs'
      exact processPairT_trace_prog cap (e j) i j s s' hs'

lemma runPairsT_maxlen_isSome (cap : Nat) (e : Nat → Bytes) (i : Nat) :
    ∀ (js : List Nat) (s : TempStore), s.max_len.isSome →
    (runPairsT cap e i js s).state.max_len.isSome := by
  intro js
  induction js with
  | nil => intro s h; exact h
  | cons j js ih =>
    intro s h
    have hpair : (processPairT cap (e j) i j s).state.max_len.isSome := by
      rcases processPairT_maxlen_cases cap (e j) i j s with hc | hc <;> rw [hc]
      · exact h
      · rfl
    unfold runPairsT
    dsimp only
    rcases hp : (processPairT cap (e j) i j s).err with _ | er
    · dsimp only
      exact ih _ hpair
    · dsimp only
      exact hpair

lemma runPairsT_state_dataNI (cap : Nat) (e : Nat → Bytes) (i : Nat) :
    ∀ (js : List Nat) (s : TempStore) (a b : Nat), (a ≠ i ∨ b ∉ js) →
    (runPairsT cap e i js s).state.data a b = s.data a b := by
  intro js
  induction js with
  | nil => intro s a b _; rfl
  | cons j js ih =>
    intro s a b hab
    have hab2 : ¬(a = i ∧ b = j) := by
      rcases hab with h | h
      · exact fun hc => h hc.1
      · exact fun hc => h (hc.2 ▸ List.mem_cons_self j js)
    have hpair : (processPairT cap (e j) i j s).state.data a b = s.data a b := by
      rcases hp : (processPairT cap (e j) i j s).err with _ | er
      · rw [processPairT_success_data cap (e j) i j s hp, if_neg hab2]
      · rw [processPairT_err_data hp]
    unfold runPairsT
    dsimp only
    rcases hp : (processPairT cap (e j) i j s).err with _ | er
    · dsimp only
      have hab3 : a ≠ i ∨ b ∉ js := by
        rcases hab with h | h
        · exact Or.inl h
        · exact Or.inr (fun hc => h (List.mem_cons_of_mem j hc))
      rw [ih _ a b hab3, hpair]
    · dsimp only
      exact hpair

lemma runPairsT_trace_dataNE (cap : Nat) (e : Nat → Bytes) (i : Nat) :
    ∀ (js : List Nat) (s : TempStore),
    ∀ s' ∈ (runPairsT cap e i js s).trace, ∀ a b, a ≠ i →
      s'.data a b = s.data a b := by
  intro js
  induction js with
  | nil => intro s s' hs'; simp [runPairsT] at hs'
  | cons j js ih =>
    intro s s' hs' a b ha
    unfold runPairsT at hs'
    dsimp only at hs'
    rcases hp : (processPairT cap (e j) i j s).err with _ | er
    · rw [hp] at hs'
      dsimp only at hs'
      rcases List.mem_append.1 hs' with h | h
      · exact processPairT_trace_data cap (e j) i j s s' h a b
          (fun hc => ha hc.1)
      · rw [ih _ _ h a b ha, processPairT_success_data cap (e j) i j s hp,
          if_neg (fun hc => ha hc.1)]
    · rw [hp] at hs'
      dsimp only at hs'
      exact processPairT_trace_data cap (e j) i j s s' hs' a b
        (fun hc => ha hc.1)

lemma runPairsT_success_write (cap : Nat) (e : Nat → Bytes) (i : Nat) :
    ∀ (js : List Nat) (s : TempStore), js.Nodup →
    (runPairsT cap e i js s).err = none →
    ∀ j0 ∈ js, (runPairsT cap e i js s).state.data i j0 =
        e j0 ++ (s.data i j0).drop (e j0).length ∧
      (e j0).length ≤ cap := by
  intro js
  induction js with
  | nil => intro s _ _ j0 hj0; simp at hj0
  | cons j js ih =>
    intro s hnd h j0 hj0
    unfold runPairsT at h ⊢
    dsimp only at h ⊢
    rcases hp : (processPairT cap (e j) i j s).err with _ | er
    · rw [hp] at h
      dsimp only at h ⊢
      rcases List.mem_cons.1 hj0 with rfl | hj0'
      · have hwrote : (processPairT cap (e j0) i j0 s).state.data i j0 =
            e j0 ++ (s.data i j0).drop (e j0).length := by
          rw [processPairT_success_data cap (e j0) i j0 s hp, if_pos ⟨rfl, rfl⟩]
        have hkeep : (runPairsT cap e i js
            (processPairT cap (e j0) i j0 s).state).state.data i j0 =
            (processPairT cap (e j0) i j0 s).state.data i j0 :=
          runPairsT_state_dataNI cap e i js _ i j0
            (Or.inr (List.nodup_cons.1 hnd).1)
        exact ⟨hkeep.trans hwrote,
          (processPairT_err_none_iff cap (e j0) i j0 s).1 hp⟩
      · have hne : j0 ≠ j := fun hc =>
          (List.nodup_cons.1 hnd).1 (hc ▸ hj0')
        have hkeep : (processPairT cap (e j) i j s).state.data i j0 =
            s.data i j0 := by
          rw [processPairT_success_data cap (e j) i j s hp,
            if_neg (fun hc => hne hc.2)]
        have := ih _ (List.nodup_cons.1 hnd).2 h j0 hj0'
        rw [hkeep] at this
        exact this
    · rw [hp] at h
      simp at h

lemma runPairsT_success_maxlen (cap : Nat) (e : Nat → Bytes) (i : Nat) :
    ∀ (js : List Nat) (s : TempStore), (runPairsT cap e i js s).err = none →
    (runPairsT cap e i js s).state.max_len.getD 0 =
      (js.map fun j => (e j).length).foldl max (s.max_len.getD 0) := by
  intro js
  induction js with
  | nil => intro s _; rfl
  | cons j js ih =>
    intro s h
    unfold runPairsT at h ⊢
    dsimp only at h ⊢
    rcases hp : (processPairT cap (e j) i j s).err with _ | er
    · rw [hp] at h
      dsimp only at h ⊢
      rw [List.map_cons, List.foldl_cons, ih _ h, processPairT_maxlen_getD]
    · rw [hp] at h
      simp at h

/-! ### Outer-loop (objects) lemmas -/

lemma runObjectsT_cons_some (env : Env) (cap i : Nat) (l : List Nat)
    (s : TempStore) {er : RunErr}
    (hpq : (runPairsT cap (env.enc i) i (List.range env.n_renderings) s).err =
      some er) :
    runObjectsT env cap (i :: l) s =
      ⟨(runPairsT cap (env.enc i) i (List.range env.n_renderings) s).trace,
       (runPairsT cap (env.enc i) i (List.range env.n_renderings) s).state,
       some er⟩ := by
  conv_lhs => rw [runObjectsT]
  dsimp only
  rw [hpq]

lemma runObjectsT_cons_none (env : Env) (cap i : Nat) (l : List Nat)
    (s : TempStore)
    (hpq : (runPairsT cap (env.enc i) i (List.range env.n_renderings) s).err =
      none) :
    runObjectsT env cap (i :: l) s =
      ⟨(runPairsT cap (env.enc i) i (List.range env.n_renderings) s).trace ++
        ({ (runPairsT cap (env.enc i) i (List.range env.n_renderings) s).state
            with prog := some (i + 1) } : TempStore) ::
        (runObjectsT env cap l
          { (runPairsT cap (env.enc i) i (List.range env.n_renderings) s).state
              with prog := some (i + 1) }).trace,
       (runObjectsT env cap l
         { (runPairsT cap (env.enc i) i (List.range env.n_renderings) s).state
             with prog := some (i + 1) }).state,
       (runObjectsT env cap l
         { (runPairsT cap (env.enc i) i (List.range env.n_renderings) s).state
             with prog := some (i + 1) }).err⟩ := by
  conv_lhs => rw [runObjectsT]
  dsimp only
  rw [hpq]

lemma runObjectsT_state_attrs (env : Env) (cap : Nat) :
    ∀ (l : List Nat) (s : TempStore),
    (runObjectsT env cap l s).state.n_renderings = s.n_renderings ∧
    (runObjectsT env cap l s).state.dataShape = s.dataShape := by
  intro l
  induction l with
  | nil => intro s; exact ⟨rfl, rfl⟩
  | cons i l ih =>
    intro s
    rcases hpq : (runPairsT cap (env.enc i) i (List.range env.n_renderings) s).err
      with _ | er
    · rw [runObjectsT_cons_none env cap i l s hpq]
      dsimp only
      refine ⟨?_, ?_⟩
      · rw [(ih _).1]
        exact (runPairsT_state_attrs cap (env.enc i) i (List.range env.n_renderings) s).2.1
      · rw [(ih _).2]
        exact (runPairsT_state_attrs cap (env.enc i) i (List.range env.n_renderings) s).2.2
    · rw [runObjectsT_cons_some env cap i l s hpq]
      dsimp only
      exact ⟨(runPairsT_state_attrs ..).2.1, (runPairsT_state_attrs ..).2.2⟩

lemma runObjectsT_maxlen_isSome (env : Env) (cap : Nat) :
    ∀ (l : List Nat) (s : TempStore), s.max_len.isSome →
    (runObjectsT env cap l s).state.max_len.isSome := by
  intro l
  induction l with
  | nil => intro s h; exact h
  | cons i l ih =>
    intro s h
    have hpair := runPairsT_maxlen_isSome cap (env.enc i) i
      (List.range env.n_renderings) s h
    rcases hpq : (runPairsT cap (env.enc i) i (List.range env.n_renderings) s).err
      with _ | er
    · rw [runObjectsT_cons_none env cap i l s hpq]
      dsimp only
      exact ih _ hpair
    · rw [runObjectsT_cons_some env cap i l s hpq]
      dsimp only
      exact hpair

lemma runObjectsT_chain (env : Env) (cap : Nat) :
    ∀ (c p : Nat) (s : TempStore), s.prog.getD 0 = p →
    List.Chain' stepRel (s :: (runObjectsT env cap (List.range' p c) s).trace) := by
  intro c
  induction c with
  | zero => intro p s _; simp [runObjectsT]
  | succ c ih =>
    intro p s hp
    rw [List.range'_succ]
    rcases hpq : (runPairsT cap (env.enc p) p (List.range env.n_renderings) s).err
      with _ | er
    · rw [runObjectsT_cons_none env cap p (List.range' (p + 1) c) s hpq]
      dsimp only
      refine chain_lastOf_append s _ _
        (runPairsT_chain cap (env.enc p) p (List.range env.n_renderings) s) ?_
      rw [← runPairsT_last]
      have hprog : (runPairsT cap (env.enc p) p
          (List.range env.n_renderings) s).state.prog = s.prog :=
        (runPairsT_state_attrs ..).1
      have h1 : (runPairsT cap (env.enc p) p
          (List.range env.n_renderings) s).state.prog.getD 0 = p := by
        rw [hprog, hp]
      refine List.chain'_cons.2 ⟨⟨le_refl _, ?_, ?_⟩, ?_⟩
      · show (runPairsT cap (env.enc p) p
          (List.range env.n_renderings) s).state.prog.getD 0 ≤ p + 1
        omega
      · show p + 1 ≤ (runPairsT cap (env.enc p) p
          (List.range env.n_renderings) s).state.prog.getD 0 + 1
        omega
      · exact ih (p + 1)
          { (runPairsT cap (env.enc p) p (List.range env.n_renderings) s).state with prog := some (p + 1) } rfl
    · rw [runObjectsT_cons_some env cap p (List.range' (p + 1) c) s hpq]
      dsimp only
      exact runPairsT_chain cap (env.enc p) p (List.range env.n_renderings) s

lemma runObjectsT_trace_prog_bound (env : Env) (cap : Nat) :
    ∀ (l : List Nat) (N : Nat) (s : TempStore),
    (∀ i ∈ l, i + 1 ≤ N) → s.prog.getD 0 ≤ N →
    ∀ s' ∈ (runObjectsT env cap l s).trace, s'.prog.getD 0 ≤ N := by
  intro l
  induction l with
  | nil => intro N s _ _ s' hs'; simp [runObjectsT] at hs'
  | cons i l ih =>
    intro N s hl hs s' hs'
    have hpairbound : ∀ s' ∈ (runPairsT cap (env.enc i) i
        (List.range env.n_renderings) s).trace, s'.prog.getD 0 ≤ N := by
      intro s2 hs2
      rw [runPairsT_trace_prog cap (env.enc i) i (List.range env.n_renderings)
        s s2 hs2]
      exact hs
    rcases hpq : (runPairsT cap (env.enc i) i (List.range env.n_renderings) s).err
      with _ | er
    · rw [runObjectsT_cons_none env cap i l s hpq] at hs'
      dsimp only at hs'
      rcases List.mem_append.1 hs' with h | h
      · exact hpairbound s' h
      · rcases List.mem_cons.1 h with rfl | h2
        · show i + 1 ≤ N
          exact hl i (List.mem_cons_self i l)
        · refine ih N _ (fun i' hi' => hl i' (List.mem_cons_of_mem i hi')) ?_ s' h2
          show i + 1 ≤ N
          exact hl i (List.mem_cons_self i l)
    · rw [runObjectsT_cons_some env cap i l s hpq] at hs'
      dsimp only at hs'
      exact hpairbound s' hs'

lemma runObjectsT_trace_prog_lb (env : Env) (cap : Nat) :
    ∀ (c p : Nat) (s : TempStore), s.prog.getD 0 = p →
    ∀ s' ∈ (runObjectsT env cap (List.range' p c) s).trace,
      p ≤ s'.prog.getD 0 := by
  intro c
  induction c with
  | zero => intro p s _ s' hs'; simp [runObjectsT] at hs'
  | succ c ih =>
    intro p s hp s' hs'
    rw [List.range'_succ] at hs'
    have hpairlb : ∀ s' ∈ (runPairsT cap (env.enc p) p
        (List.range env.n_renderings) s).trace, p ≤ s'.prog.getD 0 := by
      intro s2 hs2
      rw [runPairsT_trace_prog cap (env.enc p) p (List.range env.n_renderings)
        s s2 hs2, hp]
    rcases hpq : (runPairsT cap (env.enc p) p (List.range env.n_renderings) s).err
      with _ | er
    · rw [runObjectsT_cons_none env cap p (List.range' (p + 1) c) s hpq] at hs'
      dsimp only at hs'
      rcases List.mem_append.1 hs' with h | h
      · exact hpairlb s' h
      · rcases List.mem_cons.1 h with rfl | h2
        · show p ≤ p + 1
          omega
        · have := ih (p + 1)
            { (runPairsT cap (env.enc p) p (List.range env.n_renderings) s).state with prog := some (p + 1) } rfl s' h2
          omega
    · rw [runObjectsT_cons_some env cap p (List.range' (p + 1) c) s hpq] at hs'
      dsimp only at hs'
      exact hpairlb s' hs'

lemma runObjectsT_success_prog (env : Env) (cap : Nat) :
    ∀ (c p : Nat) (s : TempStore), s.prog.getD 0 = p →
    (runObjectsT env cap (List.range' p c) s).err = none →
    (runObjectsT env cap (List.range' p c) s).state.prog.getD 0 = p + c := by
  intro c
  induction c with
  | zero => intro p s hp _; simpa [runObjectsT] using hp
  | succ c ih =>
    intro p s hp h
    rw [List.range'_succ] at h ⊢
    rcases hpq : (runPairsT cap (env.enc p) p (List.range env.n_renderings) s).err
      with _ | er
    · rw [runObjectsT_cons_none env cap p (List.range' (p + 1) c) s hpq] at h ⊢
      dsimp only at h ⊢
      have := ih (p + 1)
        { (runPairsT cap (env.enc p) p (List.range env.n_renderings) s).state
            with prog := some (p + 1) } rfl h
      exact this.trans (by omega)
    · rw [runObjectsT_cons_some env cap p (List.range' (p + 1) c) s hpq] at h
      simp at h

lemma runObjectsT_success_maxlen (env : Env) (cap : Nat) :
    ∀ (l : List Nat) (s : TempStore),
    (runObjectsT env cap l s).err = none →
    (runObjectsT env cap l s).state.max_len.getD 0 =
      ((l.flatMap fun i => (List.range env.n_renderings).map
          fun j => (env.enc i j).length).foldl max (s.max_len.getD 0)) := by
  intro l
  induction l with
  | nil => intro s _; rfl
  | cons i l ih =>
    intro s h
    rcases hpq : (runPairsT cap (env.enc i) i (List.range env.n_renderings) s).err
      with _ | er
    · rw [runObjectsT_cons_none env cap i l s hpq] at h ⊢
      dsimp only at h ⊢
      rw [List.flatMap_cons, List.foldl_append, ih _ h]
      have : ({ (runPairsT cap (env.enc i) i (List.range env.n_renderings) s).state
          with prog := some (i + 1) } : TempStore).max_len.getD 0 =
          ((List.range env.n_renderings).map fun j => (env.enc i j).length).foldl
            max (s.max_len.getD 0) := by
        show (runPairsT cap (env.enc i) i
          (List.range env.n_renderings) s).state.max_len.getD 0 = _
        exact runPairsT_success_maxlen cap (env.enc i) i _ s hpq
      rw [this]
    · rw [runObjectsT_cons_some env cap i l s hpq] at h
      simp at h

lemma runObjectsT_append_err_none (env : Env) (cap : Nat) :
    ∀ (l1 l2 : List Nat) (s : TempStore),
    (runObjectsT env cap l1 s).err = none →
    (runObjectsT env cap (l1 ++ l2) s).state =
      (runObjectsT env cap l2 (runObjectsT env cap l1 s).state).state ∧
    (runObjectsT env cap (l1 ++ l2) s).err =
      (runObjectsT env cap l2 (runObjectsT env cap l1 s).state).err := by
  intro l1
  induction l1 with
  | nil => intro l2 s _; exact ⟨rfl, rfl⟩
  | cons i l1 ih =>
    intro l2 s h
    rcases hpq : (runPairsT cap (env.enc i) i (List.range env.n_renderings) s).err
      with _ | er
    · rw [List.cons_append,
        runObjectsT_cons_none env cap i (l1 ++ l2) s hpq,
        runObjectsT_cons_none env cap i l1 s hpq]
      rw [runObjectsT_cons_none env cap i l1 s hpq] at h
      dsimp only at h ⊢
      exact ih l2 _ h
    · rw [runObjectsT_cons_some env cap i l1 s hpq] at h
      simp at h

lemma runObjectsT_invariant (env : Env) (cap : Nat) :
    ∀ (c p : Nat) (s : TempStore), s.prog.getD 0 = p →
    committedComplete env cap s →
    (∀ a b, p ≤ a → s.data a b = List.replicate cap 0) →
    ∀ s' ∈ (runObjectsT env cap (List.range' p c) s).trace,
      committedComplete env cap s' := by
  intro c
  induction c with
  | zero => intro p s _ _ _ s' hs'; simp [runObjectsT] at hs'
  | succ c ih =>
    intro p s hp hcc hz s' hs'
    rw [List.range'_succ] at hs'
    have hccPairTrace : ∀ s2 ∈ (runPairsT cap (env.enc p) p
        (List.range env.n_renderings) s).trace, committedComplete env cap s2 := by
      intro s2 hs2 a b ha hb
      rw [runPairsT_trace_prog cap (env.enc p) p (List.range env.n_renderings)
        s s2 hs2, hp] at ha
      rw [runPairsT_trace_dataNE cap (env.enc p) p (List.range env.n_renderings)
        s s2 hs2 a b (by omega)]
      exact hcc a b (by omega) hb
    rcases hpq : (runPairsT cap (env.enc p) p (List.range env.n_renderings) s).err
      with _ | er
    · rw [runObjectsT_cons_none env cap p (List.range' (p + 1) c) s hpq] at hs'
      dsimp only at hs'
      have hccsc : committedComplete env cap
          ({ (runPairsT cap (env.enc p) p (List.range env.n_renderings) s).state
              with prog := some (p + 1) } : TempStore) := by
        intro a b ha hb
        have ha2 : a < p + 1 := ha
        show (runPairsT cap (env.enc p) p
          (List.range env.n_renderings) s).state.data a b = _ ∧ _
        rcases Nat.lt_or_ge a p with hap | hap
        · rw [runPairsT_state_dataNI cap (env.enc p) p
            (List.range env.n_renderings) s a b (Or.inl (by omega))]
          exact hcc a b (by omega) hb
        · have hap2 : a = p := by omega
          subst hap2
          have hw := runPairsT_success_write cap (env.enc a) a
            (List.range env.n_renderings) s (List.nodup_range _) hpq b
            (List.mem_range.2 hb)
          rw [hz a b (le_refl a), List.drop_replicate] at hw
          exact hw
      have hzsc : ∀ a b, p + 1 ≤ a →
          ({ (runPairsT cap (env.enc p) p (List.range env.n_renderings) s).state
              with prog := some (p + 1) } : TempStore).data a b =
            List.replicate cap 0 := by
        intro a b ha
        show (runPairsT cap (env.enc p) p
          (List.range env.n_renderings) s).state.data a b = _
        rw [runPairsT_state_dataNI cap (env.enc p) p
          (List.range env.n_renderings) s a b (Or.inl (by omega))]
        exact hz a b (by omega)
      rcases List.mem_append.1 hs' with h | h
      · exact hccPairTrace s' h
      · rcases List.mem_cons.1 h with rfl | h2
        · exact hccsc
        · exact ih (p + 1)
            { (runPairsT cap (env.enc p) p (List.range env.n_renderings) s).state with prog := some (p + 1) } rfl hccsc hzsc s' h2
    · rw [runObjectsT_cons_some env cap p (List.range' (p + 1) c) s hpq] at hs'
      dsimp only at hs'
      exact hccPairTrace s' hs'

lemma requireDataset_some (s : TempStore) (sh : Nat × Nat × Nat) (s3 : TempStore)
    (h : requireDataset s sh = some s3) :
    s3.prog = s.prog ∧ s3.max_len = s.max_len ∧
    s3.n_renderings = s.n_renderings ∧ s3.dataShape = some sh := by
  unfold requireDataset at h
  split at h
  · injection h with h
    rw [← h]
    exact ⟨rfl, rfl, rfl, rfl⟩
  · rename_i sh0 hd
    split at h
    · rename_i hsh
      injection h with h
      rw [← h]
      exact ⟨rfl, rfl, rfl, by rw [hd, hsh]⟩
    · simp at h

/-- `attrs.setdefault('n_renderings', v)` is a no-op on a store that already
has the attribute. -/
lemma setdefault_nr_noop (env : Env) (t : TempStore)
    (h : t.n_renderings = some env.n_renderings) :
    TempStore.mk t.prog t.max_len (some (t.n_renderings.getD env.n_renderings))
      t.dataShape t.data = t := by
  refine TempStore.ext rfl rfl ?_ rfl rfl
  rw [h]
  rfl

/-- Both `setdefault`s together are a no-op on a store that already has the
attributes. -/
lemma setdefault_s2_noop (env : Env) (t : TempStore) (w : Nat)
    (h1 : t.n_renderings = some env.n_renderings) (h2 : t.max_len = some w) :
    TempStore.mk t.prog (some (t.max_len.getD 0))
      (some (t.n_renderings.getD env.n_renderings)) t.dataShape t.data = t := by
  refine TempStore.ext rfl ?_ ?_ rfl rfl
  · rw [h2]
    rfl
  · rw [h1]
    rfl

end FrustrumVoxels

/-! ## Claim theorems -/

open FrustrumVoxels

/-- C7: for every voxel grid, eye position and ray shape, `convert` calls the
frustum resampler with clip planes `z_near = ‖eye‖ - 0.5` and
`z_far = z_near + 1`, field-of-view constant `f = 32/35` and
`include_corners = False` (on the axis-1-reversed dense grid and the
eye-to-world transform of `eye`), and every output cell is the resampled
value where the sample point is inside the source volume and `0` on the
complement of the `inside` mask (up to the final axis-1 reversal). -/
theorem convert_clip_fov_inside_mask :
    ∀ (u : Util3d) (vox : VoxelGrid) (eye : Vec3) (rs : Nat × Nat × Nat)
      (x y z : Nat),
    convert u vox eye rs x y z =
      (if (u.voxel_values_to_frustrum
            (fun a b c => vox.dense_data a (vox.dim1 - 1 - b) c)
            (u.get_eye_to_world_transform eye).1
            (u.get_eye_to_world_transform eye).2
            (32 / 35) (u.norm eye - 1/2) ((u.norm eye - 1/2) + 1)
            rs false).2 x (rs.2.1 - 1 - y) z
       then (u.voxel_values_to_frustrum
            (fun a b c => vox.dense_data a (vox.dim1 - 1 - b) c)
            (u.get_eye_to_world_transform eye).1
            (u.get_eye_to_world_transform eye).2
            (32 / 35) (u.norm eye - 1/2) ((u.norm eye - 1/2) + 1)
            rs false).1 x (rs.2.1 - 1 - y) z
       else 0) := by
  intro u vox eye rs x y z
  rfl

/-- C10: because the `_bad_ids` registry maps category `'02958343'` to a plain
string, `is_bad_obj('02958343', e)` is `True` exactly when `e` is a contiguous
substring of `'f9c1d7748c15499c6f2bd1c4e9adb41'` (in particular for `'f9c1'`
and for the empty string), and for every other category it is `False`. -/
theorem is_bad_obj_substring_semantics :
    (∀ e : List Char, FixedObjs.is_bad_obj "02958343".toList e = true ↔
        e <:+: "f9c1d7748c15499c6f2bd1c4e9adb41".toList) ∧
    FixedObjs.is_bad_obj "02958343".toList "f9c1".toList = true ∧
    FixedObjs.is_bad_obj "02958343".toList [] = true ∧
    (∀ cat e : List Char, cat ≠ "02958343".toList →
        FixedObjs.is_bad_obj cat e = false) := by
  refine ⟨?_, by decide, by decide, ?_⟩
  · intro e
    simp [FixedObjs.is_bad_obj, FixedObjs.get_bad_model_ids, FixedObjs._bad_ids,
      List.lookup, FixedObjs.pyIn]
  · intro cat e h
    have hb : (cat == ('0' :: '2' :: '9' :: '5' :: '8' :: '3' :: '4' :: '3' :: [])) = false :=
      beq_eq_false_iff_ne.2 h
    simp [FixedObjs.is_bad_obj, FixedObjs.get_bad_model_ids, FixedObjs._bad_ids,
      List.lookup, FixedObjs.pyIn, hb]

/-- C10 witness: a category other than `'02958343'` with a substring id is
not flagged. -/
theorem is_bad_obj_substring_semantics_witness :
    ("03001627".toList ≠ "02958343".toList) ∧
    FixedObjs.is_bad_obj "03001627".toList "f9c1".toList = false :=
  ⟨by decide, is_bad_obj_substring_semantics.2.2.2 _ _ (by decide)⟩

/-- C4 counterexample: on a fresh temp store with a missing source dataset
the run aborts with `RuntimeError('No dataset')`, but the intermediate store
has already been mutated — `attrs.setdefault('n_renderings', ...)` ran before
the precondition check, so the resulting store differs from the store the run
started from. -/
theorem precondition_mutates_attrs_counterexample :
    (create_temp_frustrum_voxels envNoData emptyStore).err =
      some RunErr.noDataset ∧
    (create_temp_frustrum_voxels envNoData emptyStore).state ≠ emptyStore := by
  refine ⟨rfl, fun hEq => ?_⟩
  have h2 : (create_temp_frustrum_voxels envNoData emptyStore).state.n_renderings
      = some 1 := rfl
  rw [hEq] at h2
  simp [emptyStore] at h2

/-- C4 amended: when a precondition failure occurs (source voxel dataset
absent, or row count of the camera-pose source differing from the voxel
source), the accumulator aborts before any mutation of `prog` or of the
dataset; the only mutations are the `setdefault` initialisations of the
`n_renderings` and `max_len` attributes, so the store stays consistent (it
still resumes from the same `prog` with the same data). -/
theorem precondition_failure_data_untouched :
    ∀ (env : Env) (s : TempStore),
    ((create_temp_frustrum_voxels env s).err = some RunErr.noDataset ∨
     (create_temp_frustrum_voxels env s).err = some RunErr.rowMismatch) →
    (create_temp_frustrum_voxels env s).state.prog = s.prog ∧
    (create_temp_frustrum_voxels env s).state.data = s.data ∧
    (create_temp_frustrum_voxels env s).state.dataShape = s.dataShape ∧
    (create_temp_frustrum_voxels env s).state.n_renderings =
      some (s.n_renderings.getD env.n_renderings) ∧
    (create_temp_frustrum_voxels env s).state.max_len =
      some (s.max_len.getD 0) := by
  intro env s h
  unfold create_temp_frustrum_voxels at *
  dsimp only at h ⊢
  split at h
  · simp at h
  · split at h
    · simp_all
    · split at h
      · simp_all
      · split at h
        · simp_all
        · rcases h with h | h <;>
          · exfalso
            rcases runObjectsT_err_cases h with ⟨d, c, hc⟩ | hc <;> simp at hc

/-- C4 witness: the amended statement at the missing-dataset environment. -/
theorem precondition_failure_data_untouched_witness :
    ((create_temp_frustrum_voxels envNoData emptyStore).err =
       some RunErr.noDataset ∨
     (create_temp_frustrum_voxels envNoData emptyStore).err =
       some RunErr.rowMismatch) ∧
    (create_temp_frustrum_voxels envNoData emptyStore).state.prog =
      emptyStore.prog ∧
    (create_temp_frustrum_voxels envNoData emptyStore).state.data =
      emptyStore.data ∧
    (create_temp_frustrum_voxels envNoData emptyStore).state.dataShape =
      emptyStore.dataShape ∧
    (create_temp_frustrum_voxels envNoData emptyStore).state.n_renderings =
      some (emptyStore.n_renderings.getD envNoData.n_renderings) ∧
    (create_temp_frustrum_voxels envNoData emptyStore).state.max_len =
      some (emptyStore.max_len.getD 0) :=
  ⟨Or.inl rfl, precondition_failure_data_untouched envNoData emptyStore (Or.inl rfl)⟩

/-- C8: the Pipeline Orchestrator is idempotent — when a file already exists
at the final destination path, `run` returns leaving the world unchanged (no
accumulation, no shrink), and any invocation that succeeds leaves the final
file present, so a second invocation after success performs no writes. -/
theorem orchestrator_idempotent :
    ∀ (env : Env) (w : World),
    (w.final.isSome → create_frustrum_voxels env w = (w, none)) ∧
    (∀ w', create_frustrum_voxels env w = (w', none) →
       create_frustrum_voxels env w' = (w', none)) := by
  intro env w
  have hpresent : ∀ v : World, v.final.isSome →
      create_frustrum_voxels env v = (v, none) := by
    intro v hv
    unfold create_frustrum_voxels
    rw [if_pos hv]
  refine ⟨hpresent w, ?_⟩
  intro w' h
  refine hpresent w' ?_
  by_cases hw : w.final.isSome
  · rw [hpresent w hw] at h
    have h1 : w = w' := congrArg Prod.fst h
    exact h1 ▸ hw
  · unfold create_frustrum_voxels at h
    rw [if_neg hw] at h
    dsimp only at h
    rcases he : (create_temp_frustrum_voxels env w.temp).err with _ | er
    · rw [he] at h
      rcases hsh : _shrink_data 100 (create_temp_frustrum_voxels env w.temp).state
        with _ | ⟨t2, dst⟩
      · rw [hsh] at h
        dsimp only at h
        have h2 : some RunErr.shrinkFail = (none : Option RunErr) :=
          congrArg Prod.snd h
        exact absurd h2 (by simp)
      · rw [hsh] at h
        dsimp only at h
        have h1 : ({ final := some dst, temp := t2 } : World) = w' :=
          congrArg Prod.fst h
        rw [← h1]
        rfl
    · rw [he] at h
      dsimp only at h
      have h2 : some er = (none : Option RunErr) := congrArg Prod.snd h
      exact absurd h2 (by simp)

/-- Each row index below `n` is covered by exactly the chunk it belongs to:
the start `(i / cs) * cs` is produced by `range(0, n, cs)` and its half-open
interval contains `i`. -/
lemma chunk_cover (n cs i : Nat) (hcs : 0 < cs) (hi : i < n) :
    ∃ i0 ∈ chunkStarts n cs, i0 ≤ i ∧ i < min (i0 + cs) n := by
  refine ⟨i / cs * cs, ?_, Nat.div_mul_le_self i cs, ?_⟩
  · unfold chunkStarts
    refine List.mem_map.2 ⟨i / cs, List.mem_range.2 ?_, rfl⟩
    have h1 : i + cs ≤ n + cs - 1 := by omega
    have h2 : (i + cs) / cs ≤ (n + cs - 1) / cs := Nat.div_le_div_right h1
    rw [Nat.add_div_right _ hcs] at h2
    omega
  · refine lt_min_iff.2 ⟨?_, hi⟩
    rw [Nat.mul_comm]
    have hdm := Nat.div_add_mod i cs
    have hm : i % cs < cs := Nat.mod_lt _ hcs
    omega

/-- The chunked copy loop never changes the destination shape. -/
lemma shrink_fold_shape (src : TempStore) (ml cs n : Nat) :
    ∀ (L : List Nat) (d0 : FinalStore),
    (L.foldl (fun acc i0 =>
        { acc with data := fun x y =>
            if i0 ≤ x ∧ x < min (i0 + cs) n then (src.data x y).take ml
            else acc.data x y }) d0).shape = d0.shape := by
  intro L
  induction L with
  | nil => intro d0; rfl
  | cons i0 L ih =>
    intro d0
    rw [List.foldl_cons, ih]

/-- Evaluating the chunked copy loop of `_shrink_data`: a cell `(a, b)` holds
the `max_len`-prefix of the source row exactly when some visited chunk covers
row `a`. -/
lemma shrink_fold_data (src : TempStore) (ml cs n : Nat) :
    ∀ (L : List Nat) (d0 : FinalStore) (a b : Nat),
    ((L.foldl (fun acc i0 =>
        { acc with data := fun x y =>
            if i0 ≤ x ∧ x < min (i0 + cs) n then (src.data x y).take ml
            else acc.data x y }) d0).data a b) =
      if ∃ i0 ∈ L, i0 ≤ a ∧ a < min (i0 + cs) n then (src.data a b).take ml
      else d0.data a b := by
  intro L
  induction L with
  | nil => intro d0 a b; simp
  | cons i0 L ih =>
    intro d0 a b
    rw [List.foldl_cons, ih]
    have hsplit : (∃ x ∈ i0 :: L, x ≤ a ∧ a < min (x + cs) n) ↔
        ((i0 ≤ a ∧ a < min (i0 + cs) n) ∨ ∃ x ∈ L, x ≤ a ∧ a < min (x + cs) n) := by
      simp
    by_cases hL : ∃ x ∈ L, x ≤ a ∧ a < min (x + cs) n
    · rw [if_pos hL, if_pos (hsplit.2 (Or.inr hL))]
    · rw [if_neg hL]
      dsimp only
      by_cases hc : i0 ≤ a ∧ a < min (i0 + cs) n
      · rw [if_pos hc, if_pos (hsplit.2 (Or.inl hc))]
      · rw [if_neg hc, if_neg (fun hx => ((hsplit.1 hx).elim hc hL))]

/-- C6: `_shrink_data` writes a new store of shape
`(n_objects, n_renderings, max_len)` whose entry at every `(i, j)` is the
first `max_len` bytes of the corresponding intermediate-store row, and it
accesses the intermediate store read-only, returning it unchanged. -/
theorem shrink_copies_prefix :
    ∀ (cs : Nat) (src : TempStore) (ml n r cap : Nat),
    0 < cs → src.max_len = some ml → src.dataShape = some (n, r, cap) →
    ∃ dst : FinalStore,
      _shrink_data cs src = some (src, dst) ∧
      dst.shape = (n, r, ml) ∧
      ∀ i < n, ∀ j < r, dst.data i j = (src.data i j).take ml := by
  intro cs src ml n r cap hcs hml hshape
  unfold _shrink_data
  rw [hml, hshape]
  dsimp only
  rw [if_neg (by omega)]
  refine ⟨_, rfl, ?_, ?_⟩
  · rw [shrink_fold_shape]
  · intro i hi j hj
    rw [shrink_fold_data, if_pos (chunk_cover n cs i hcs hi)]

/-- C6 witness: the compactor on the synthetic store. -/
theorem shrink_copies_prefix_witness :
    0 < 2 ∧ srcShrinkW.max_len = some 2 ∧ srcShrinkW.dataShape = some (3, 1, 4) ∧
    ∃ dst : FinalStore,
      _shrink_data 2 srcShrinkW = some (srcShrinkW, dst) ∧
      dst.shape = (3, 1, 2) ∧
      ∀ i < 3, ∀ j < 1, dst.data i j = (srcShrinkW.data i j).take 2 :=
  ⟨by decide, rfl, rfl,
   shrink_copies_prefix 2 srcShrinkW 2 3 1 4 (by decide) rfl rfl⟩

/-- C8 witness: with the final file already present the orchestrator is a
no-op. -/
theorem orchestrator_idempotent_witness :
    (World.mk (some finalStore0) emptyStore).final.isSome ∧
    create_frustrum_voxels envNoData (World.mk (some finalStore0) emptyStore) =
      (World.mk (some finalStore0) emptyStore, none) :=
  ⟨rfl, (orchestrator_idempotent envNoData _).1 rfl⟩

/-! ### Lemmas for the concatenated-layout compactor -/

lemma stripRows_succ (strip : Bytes → Bytes) (src : TempStore) (n r : Nat) :
    stripRows strip src (n + 1) r =
      stripRows strip src n r ++
        (List.range r).map (fun j => strip (src.data n j)) := by
  unfold stripRows
  rw [List.range_succ, List.flatMap_append]
  simp

lemma stripRows_length (strip : Bytes → Bytes) (src : TempStore) (r : Nat) :
    ∀ n, (stripRows strip src n r).length = n * r := by
  intro n
  induction n with
  | zero => simp [stripRows]
  | succ n ih =>
    rw [stripRows_succ, List.length_append, ih, List.length_map,
      List.length_range, Nat.succ_mul]

lemma stripRows_getD (strip : Bytes → Bytes) (src : TempStore) (r : Nat) :
    ∀ n i j, i < n → j < r →
    (stripRows strip src n r).getD (i * r + j) [] = strip (src.data i j) := by
  intro n
  induction n with
  | zero => omega
  | succ n ih =>
    intro i j hi hj
    rw [stripRows_succ]
    by_cases hin : i < n
    · have h1 : i * r + j < (i + 1) * r := by rw [Nat.succ_mul]; omega
      have h2 : (i + 1) * r ≤ n * r := Nat.mul_le_mul_right r hin
      rw [List.getD_append _ _ _ _ (by rw [stripRows_length]; omega)]
      exact ih i j hin hj
    · have hieq : i = n := by omega
      subst hieq
      rw [List.getD_append_right _ _ _ _ (by rw [stripRows_length]; omega)]
      rw [stripRows_length]
      have hidx : i * r + j - i * r = j := by omega
      rw [hidx]
      have hjlen : j < ((List.range r).map (fun j => strip (src.data i j))).length := by
        simpa using hj
      rw [List.getD_eq_getElem _ _ hjlen]
      simp

lemma scanl_add_getD (l : List Nat) :
    ∀ (a k : Nat), k ≤ l.length →
    (List.scanl (· + ·) a l).getD k 0 = a + (l.take k).sum := by
  induction l with
  | nil =>
    intro a k hk
    have hk0 : k = 0 := by simpa using hk
    subst hk0
    simp [List.scanl]
  | cons x l ih =>
    intro a k hk
    cases k with
    | zero => simp [List.scanl]
    | succ k =>
      rw [List.scanl_cons]
      have : ([a] ++ List.scanl (· + ·) (a + x) l).getD (k + 1) 0 =
          (List.scanl (· + ·) (a + x) l).getD k 0 := by simp
      rw [this, ih (a + x) k (by simpa using hk)]
      simp [Nat.add_assoc]

lemma scanl_add_chain (l : List Nat) :
    ∀ a : Nat, List.Chain' (· ≤ ·) (List.scanl (· + ·) a l) := by
  induction l with
  | nil => intro a; simp [List.scanl]
  | cons x l ih =>
    intro a
    rw [List.scanl_cons]
    refine List.Chain'.append (by simp) (ih (a + x)) ?_
    intro p hp q hq
    have hp2 : a = p := by simpa using hp
    have hq2 : a + x = q := by
      cases l <;> simpa [List.scanl] using hq
    omega

lemma sum_take_succ_getD (l : List Nat) :
    ∀ k, k < l.length →
    (l.take (k + 1)).sum = (l.take k).sum + l.getD k 0 := by
  induction l with
  | nil => intro k hk; simp at hk
  | cons x l ih =>
    intro k hk
    cases k with
    | zero => simp
    | succ k =>
      rw [List.take_succ_cons, List.take_succ_cons, List.sum_cons, List.sum_cons,
        List.getD_cons_succ, ih k (by simpa using hk)]
      omega

lemma map_length_getD (l : List Bytes) :
    ∀ k, k < l.length →
    (l.map List.length).getD k 0 = (l.getD k []).length := by
  induction l with
  | nil => intro k hk; simp at hk
  | cons d l ih =>
    intro k hk
    cases k with
    | zero => simp
    | succ k => simpa using ih k (by simpa using hk)

lemma writeAll_lt (ds : List Bytes) :
    ∀ (a : Nat) (v : Nat → Nat) (idx : Nat), idx < a →
    writeAll a v ds idx = v idx := by
  induction ds with
  | nil => intro a v idx _; rfl
  | cons d ds ih =>
    intro a v idx h
    rw [show writeAll a v (d :: ds) =
      writeAll (a + d.length) (writeSeg v a d) ds from rfl]
    rw [ih (a + d.length) _ idx (by omega)]
    unfold writeSeg
    rw [if_neg (by omega)]

lemma writeAll_extract (ds : List Bytes) :
    ∀ (a : Nat) (v : Nat → Nat) (k : Nat), k < ds.length →
    ∀ t, t < (ds.getD k []).length →
    writeAll a v ds (a + ((ds.map List.length).take k).sum + t) =
      (ds.getD k []).getD t 0 := by
  induction ds with
  | nil => intro a v k hk; simp at hk
  | cons d ds ih =>
    intro a v k hk t ht
    cases k with
    | zero =>
      rw [List.getD_cons_zero] at ht ⊢
      rw [show writeAll a v (d :: ds) =
        writeAll (a + d.length) (writeSeg v a d) ds from rfl]
      have hidx : a + ((List.map List.length (d :: ds)).take 0).sum + t = a + t := by
        simp
      rw [hidx, writeAll_lt ds _ _ _ (by omega)]
      unfold writeSeg
      rw [if_pos ⟨by omega, by omega⟩]
      congr 1
      omega
    | succ k =>
      rw [List.getD_cons_succ] at ht ⊢
      rw [show writeAll a v (d :: ds) =
        writeAll (a + d.length) (writeSeg v a d) ds from rfl]
      have hidx : a + ((List.map List.length (d :: ds)).take (k + 1)).sum + t =
          (a + d.length) + ((ds.map List.length).take k).sum + t := by
        simp [Nat.add_assoc]
      rw [hidx]
      exact ih (a + d.length) (writeSeg v a d) k (by simpa using hk) t ht

/-- C9: `_concat_data` produces a `starts` dataset of length
`n_objects * n_renderings + 1` starting at `0` and monotonically
non-decreasing, and a `values` dataset of length `starts[-1]` such that for
every pair index `k = i * n_renderings + j` (row-major), the slice
`values[starts[k] : starts[k+1]]` equals the padding-stripped RLE stream of
intermediate row `(i, j)`. -/
theorem concat_layout_correct :
    ∀ (strip : Bytes → Bytes) (src : TempStore) (n r cap : Nat),
    src.dataShape = some (n, r, cap) →
    ∃ c : ConcatStore, _concat_data strip src = some c ∧
      c.starts.length = n * r + 1 ∧
      c.starts.getD 0 0 = 0 ∧
      List.Chain' (· ≤ ·) c.starts ∧
      c.nvalues = c.starts.getLast?.getD 0 ∧
      ∀ i < n, ∀ j < r,
        (List.range (c.starts.getD (i * r + j + 1) 0 -
            c.starts.getD (i * r + j) 0)).map
            (fun t => c.values (c.starts.getD (i * r + j) 0 + t)) =
          strip (src.data i j) := by
  intro strip src n r cap hshape
  unfold _concat_data
  rw [hshape]
  dsimp only
  refine ⟨_, rfl, ?_, ?_, scanl_add_chain _ _, rfl, ?_⟩
  · rw [List.length_scanl, List.length_map, stripRows_length]
  · rw [scanl_add_getD _ 0 0 (by omega)]
    simp
  · intro i hi j hj
    have hrowlen : (stripRows strip src n r).length = n * r :=
      stripRows_length strip src r n
    have hk : i * r + j < n * r := by
      have h1 : i * r + j < (i + 1) * r := by rw [Nat.succ_mul]; omega
      have h2 : (i + 1) * r ≤ n * r := Nat.mul_le_mul_right r hi
      omega
    have hkrows : i * r + j < (stripRows strip src n r).length := by omega
    have hmaplen : ((stripRows strip src n r).map List.length).length = n * r := by
      rw [List.length_map, hrowlen]
    have hrow : (stripRows strip src n r).getD (i * r + j) [] =
        strip (src.data i j) := stripRows_getD strip src r n i j hi hj
    have ha : (List.scanl (· + ·) 0 ((stripRows strip src n r).map List.length)).getD
        (i * r + j) 0 =
        (((stripRows strip src n r).map List.length).take (i * r + j)).sum := by
      rw [scanl_add_getD _ 0 _ (by omega)]
      omega
    have hb : (List.scanl (· + ·) 0 ((stripRows strip src n r).map List.length)).getD
        (i * r + j + 1) 0 =
        (((stripRows strip src n r).map List.length).take (i * r + j)).sum +
          (strip (src.data i j)).length := by
      rw [scanl_add_getD _ 0 _ (by omega)]
      rw [sum_take_succ_getD _ _ (by omega), map_length_getD _ _ (by omega), hrow]
      omega
    rw [ha, hb]
    have hdiff : (((stripRows strip src n r).map List.length).take (i * r + j)).sum +
        (strip (src.data i j)).length -
        (((stripRows strip src n r).map List.length).take (i * r + j)).sum =
        (strip (src.data i j)).length := by omega
    rw [hdiff]
    refine List.ext_getElem (by simp) ?_
    intro t ht1 ht2
    rw [List.getElem_map, List.getElem_range]
    dsimp only
    have htrow : t < ((stripRows strip src n r).getD (i * r + j) []).length := by
      rw [hrow]; exact ht2
    have hval := writeAll_extract (stripRows strip src n r) 0 (fun _ => 0)
      (i * r + j) hkrows t htrow
    rw [hrow] at hval
    have h0S : (0 : Nat) +
        (((stripRows strip src n r).map List.length).take (i * r + j)).sum + t =
        (((stripRows strip src n r).map List.length).take (i * r + j)).sum + t := by
      omega
    rw [h0S] at hval
    rw [hval]
    exact List.getD_eq_getElem _ _ ht2

/-- C9 witness: the concat compactor on the synthetic store with a strip
function removing trailing zeros. -/
theorem concat_layout_correct_witness :
    srcConcatW.dataShape = some (2, 2, 3) ∧
    ∃ c : ConcatStore,
      _concat_data (fun b => b.take 2) srcConcatW = some c ∧
      c.starts.length = 2 * 2 + 1 ∧
      c.starts.getD 0 0 = 0 ∧
      List.Chain' (· ≤ ·) c.starts ∧
      c.nvalues = c.starts.getLast?.getD 0 ∧
      ∀ i < 2, ∀ j < 2,
        (List.range (c.starts.getD (i * 2 + j + 1) 0 -
            c.starts.getD (i * 2 + j) 0)).map
            (fun t => c.values (c.starts.getD (i * 2 + j) 0 + t)) =
          (fun b : Bytes => b.take 2) (srcConcatW.data i j) :=
  ⟨rfl, concat_layout_correct (fun b => b.take 2) srcConcatW 2 2 3 rfl⟩

/-- C3 counterexample: the first (fresh) run over an over-capacity encoding
does raise `ValueError('max_max_len exceeded. 4 > 3')` — but it persists
`max_len = 4` first, so the run resumed after that failure re-encounters the
same over-capacity encoding with `dlen > max_len` false, skips the capacity
check entirely, and dies at the dataset write with a shape-mismatch error
that surfaces neither the offending length nor the capacity bound.  This
refutes the claim that the capacity failure (with its reported lengths) fires
for every over-capacity encoding regardless of the current `max_len`. -/
theorem capacity_check_skipped_on_resume_counterexample :
    (create_temp_frustrum_voxels envOverCap emptyStore).err =
      some (RunErr.capacity 4 3) ∧
    (create_temp_frustrum_voxels envOverCap
        (create_temp_frustrum_voxels envOverCap emptyStore).state).err =
      some RunErr.broadcast := by
  exact ⟨by decide, by decide⟩

/-- C3 amended: an encoding whose length exceeds the preallocated capacity is
always fatal, but the `ValueError` surfacing the offending length and the
capacity bound is raised exactly when the length also exceeds the current
`max_len` attribute; when `max_len` is already at least the offending length
(as in a run resumed after a previous capacity failure) the run instead dies
at the dataset write without reporting those lengths.  Consequently a fresh
run that completes successfully processed only encodings within capacity. -/
theorem capacity_violation_fatal :
    (∀ (cap : Nat) (d : Bytes) (i j : Nat) (s : TempStore),
      cap < d.length → (processPairT cap d i j s).err ≠ none) ∧
    (∀ (cap : Nat) (d : Bytes) (i j : Nat) (s : TempStore),
      cap < d.length →
      ((processPairT cap d i j s).err = some (RunErr.capacity d.length cap) ↔
        s.max_len.getD 0 < d.length)) ∧
    (∀ env : Env, (create_temp_frustrum_voxels env emptyStore).err = none →
      ∀ i < env.n0, ∀ j < env.n_renderings,
        (env.enc i j).length ≤ 3 * env.m) := by
  refine ⟨?_, ?_, ?_⟩
  · intro cap d i j s hcap h
    exact absurd ((processPairT_err_none_iff cap d i j s).1 h) (by omega)
  · intro cap d i j s hcap
    unfold processPairT
    dsimp only
    constructor
    · intro h
      by_contra hml
      rw [if_neg hml, if_pos hcap] at h
      simp at h
    · intro hml
      rw [if_pos hml, if_pos hcap]
  · intro env h i hi j hj
    unfold create_temp_frustrum_voxels at h
    dsimp only at h
    have hprog : emptyStore.prog.getD 0 = 0 := rfl
    split at h
    next h0 =>
      rw [hprog] at h0
      omega
    next h0 =>
      split at h
      next => simp at h
      next =>
        split at h
        next => simp at h
        next hn =>
          split at h
          next => simp at h
          next s3 hreq =>
            have hnn : env.n = env.n0 := not_not.1 hn
            refine runObjectsT_success_len h i ?_ j (List.mem_range.2 hj)
            rw [List.mem_range'_1, hprog]
            omega

/-- C3 witness: the amended statement instantiated at an over-capacity
encoding on a fresh store and at a successful small run. -/
theorem capacity_violation_fatal_witness :
    (3 < ([1, 2, 3, 4] : Bytes).length ∧
      (processPairT 3 [1, 2, 3, 4] 0 0 emptyStore).err ≠ none) ∧
    ((processPairT 3 [1, 2, 3, 4] 0 0 emptyStore).err =
        some (RunErr.capacity 4 3) ↔ emptyStore.max_len.getD 0 < 4) ∧
    ((create_temp_frustrum_voxels envOk emptyStore).err = none ∧
      (envOk.enc 0 0).length ≤ 3 * envOk.m) :=
  ⟨⟨by decide, capacity_violation_fatal.1 3 [1, 2, 3, 4] 0 0 emptyStore (by decide)⟩,
   capacity_violation_fatal.2.1 3 [1, 2, 3, 4] 0 0 emptyStore (by decide),
   by decide,
   capacity_violation_fatal.2.2 envOk (by decide) 0 (by decide) 0 (by decide)⟩

/-- C1: in every persisted state of a fresh Temp Accumulator run, the
checkpoint attribute `prog` exceeds an object index `i` only if all
`n_renderings` encoded frustum entries of object `i` have been fully written
(left-justified, zero-padded to capacity) into the intermediate store; `prog`
is never advanced past an object whose data is not fully written. -/
theorem prog_advances_only_after_full_write :
    ∀ (env : Env), ∀ s' ∈ (create_temp_frustrum_voxels env emptyStore).trace,
    ∀ i j, i < s'.prog.getD 0 → j < env.n_renderings →
      s'.data i j = env.enc i j ++
        List.replicate (3 * env.m - (env.enc i j).length) 0 ∧
      (env.enc i j).length ≤ 3 * env.m := by
  intro env s' hs'
  unfold create_temp_frustrum_voxels at hs'
  dsimp only at hs'
  split at hs'
  · simp at hs'
  · split at hs'
    · simp only [List.mem_cons] at hs'
      rcases hs' with rfl | rfl | h
      · exact fun i j hi hj => absurd hi (Nat.not_lt_zero i)
      · exact fun i j hi hj => absurd hi (Nat.not_lt_zero i)
      · simp at h
    · split at hs'
      · simp only [List.mem_cons] at hs'
        rcases hs' with rfl | rfl | h
        · exact fun i j hi hj => absurd hi (Nat.not_lt_zero i)
        · exact fun i j hi hj => absurd hi (Nat.not_lt_zero i)
        · simp at h
      · split at hs'
        · simp only [List.mem_cons] at hs'
          rcases hs' with rfl | rfl | h
          · exact fun i j hi hj => absurd hi (Nat.not_lt_zero i)
          · exact fun i j hi hj => absurd hi (Nat.not_lt_zero i)
          · simp at h
        · rename_i s3 hreq
          have h2 : (some (⟨none, some 0, some env.n_renderings,
              some (env.n, env.n_renderings, 3 * env.m),
              fun _ _ => List.replicate (3 * env.m) 0⟩ : TempStore) :
              Option TempStore) = some s3 := by
            rw [← hreq]
            rfl
          have hs3 := Option.some.inj h2
          simp only [List.mem_cons] at hs'
          rcases hs' with rfl | rfl | rfl | hmem
          · exact fun i j hi hj => absurd hi (Nat.not_lt_zero i)
          · exact fun i j hi hj => absurd hi (Nat.not_lt_zero i)
          · intro i j hi hj
            rw [← hs3] at hi
            exact absurd hi (Nat.not_lt_zero i)
          · intro i j hi hj
            refine runObjectsT_invariant env (3 * env.m) env.n 0 s3 ?_ ?_ ?_
              s' hmem i j hi hj
            · rw [← hs3]
              rfl
            · intro a b ha _
              rw [← hs3] at ha
              exact absurd ha (Nat.not_lt_zero a)
            · intro a b _
              rw [← hs3]

/-- C1 witness: the commit state of a one-object, one-rendering fresh run has
the encoded bytes zero-padded in row `(0, 0)`. -/
theorem prog_advances_only_after_full_write_witness :
    ((create_temp_frustrum_voxels envOk emptyStore).trace.getD 5 emptyStore ∈
      (create_temp_frustrum_voxels envOk emptyStore).trace) ∧
    0 < ((create_temp_frustrum_voxels envOk emptyStore).trace.getD 5
      emptyStore).prog.getD 0 ∧
    0 < envOk.n_renderings ∧
    (((create_temp_frustrum_voxels envOk emptyStore).trace.getD 5
        emptyStore).data 0 0 =
      envOk.enc 0 0 ++ List.replicate (3 * envOk.m - (envOk.enc 0 0).length) 0 ∧
      (envOk.enc 0 0).length ≤ 3 * envOk.m) := by
  have h5 : (5 : Nat) < (create_temp_frustrum_voxels envOk emptyStore).trace.length := by
    show (5 : Nat) < 6
    omega
  have hmem : (create_temp_frustrum_voxels envOk emptyStore).trace.getD 5 emptyStore ∈
      (create_temp_frustrum_voxels envOk emptyStore).trace := by
    rw [List.getD_eq_getElem _ _ h5]
    exact List.getElem_mem h5
  exact ⟨hmem, by decide, by decide,
    prog_advances_only_after_full_write envOk _ hmem 0 0 (by decide) (by decide)⟩

/-- C5: across a run of the Temp Accumulator (starting from any store whose
checkpoint does not exceed `n_objects`), consecutive persisted states have
non-decreasing `max_len` and `prog` advancing by at most one per mutation
(`stepRel`), `prog` never exceeds `n_objects` in any persisted state, and a
fresh run that completes ends with `prog = n_objects` and `max_len` equal to
the maximum encoded RLE length over all (object, rendering) pairs. -/
theorem maxlen_prog_monotone_and_complete :
    ∀ (env : Env) (s : TempStore), s.prog.getD 0 ≤ env.n0 →
    List.Chain' stepRel (s :: (create_temp_frustrum_voxels env s).trace) ∧
    (∀ s' ∈ (create_temp_frustrum_voxels env s).trace,
      s'.prog.getD 0 ≤ env.n0) ∧
    (s = emptyStore → (create_temp_frustrum_voxels env s).err = none →
      (create_temp_frustrum_voxels env s).state.prog.getD 0 = env.n0 ∧
      (create_temp_frustrum_voxels env s).state.max_len.getD 0 = maxEncLen env) := by
  intro env s hbound
  unfold create_temp_frustrum_voxels
  dsimp only
  split
  · rename_i h0
    refine ⟨by simp, by simp, ?_⟩
    intro hempty _
    subst hempty
    refine ⟨h0, ?_⟩
    have h0z : (0 : Nat) = env.n0 := h0
    show (0 : Nat) = maxEncLen env
    unfold maxEncLen
    rw [← h0z]
    rfl
  · rename_i h0
    have hrel1 : stepRel s
        { s with n_renderings := some (s.n_renderings.getD env.n_renderings) } :=
      stepRel_refl s
    have hrel2 : ∀ s1 : TempStore,
        stepRel s1 { s1 with max_len := some (s1.max_len.getD 0) } :=
      fun s1 => ⟨le_refl _, le_refl _, Nat.le_succ _⟩
    split
    · refine ⟨List.chain'_cons.2 ⟨hrel1, List.chain'_pair.2 (hrel2 _)⟩, ?_, ?_⟩
      · intro s' hs'
        simp only [List.mem_cons] at hs'
        rcases hs' with rfl | rfl | h
        · exact hbound
        · exact hbound
        · simp at h
      · intro _ herr
        simp at herr
    · split
      · refine ⟨List.chain'_cons.2 ⟨hrel1, List.chain'_pair.2 (hrel2 _)⟩, ?_, ?_⟩
        · intro s' hs'
          simp only [List.mem_cons] at hs'
          rcases hs' with rfl | rfl | h
          · exact hbound
          · exact hbound
          · simp at h
        · intro _ herr
          simp at herr
      · rename_i hn
        have hnn : env.n = env.n0 := not_not.1 hn
        split
        · refine ⟨List.chain'_cons.2 ⟨hrel1, List.chain'_pair.2 (hrel2 _)⟩, ?_, ?_⟩
          · intro s' hs'
            simp only [List.mem_cons] at hs'
            rcases hs' with rfl | rfl | h
            · exact hbound
            · exact hbound
            · simp at h
          · intro _ herr
            simp at herr
        · rename_i s3 hreq
          obtain ⟨hq1, hq2, hq3, hq4⟩ := requireDataset_some _ _ _ hreq
          have hs3prog : s3.prog.getD 0 = s.prog.getD 0 := by rw [hq1]
          refine ⟨?_, ?_, ?_⟩
          · refine List.chain'_cons.2 ⟨hrel1, List.chain'_cons.2 ⟨hrel2 _,
              List.chain'_cons.2 ⟨?_, ?_⟩⟩⟩
            · refine ⟨le_of_eq ?_, le_of_eq ?_, ?_⟩
              · rw [hq2]
              · rw [hq1]
              · rw [hs3prog]
                exact Nat.le_succ _
            · exact runObjectsT_chain env (3 * env.m)
                (env.n - s.prog.getD 0) (s.prog.getD 0) s3 hs3prog
          · intro s' hs'
            simp only [List.mem_cons] at hs'
            rcases hs' with rfl | rfl | rfl | hmem
            · exact hbound
            · exact hbound
            · omega
            · refine runObjectsT_trace_prog_bound env (3 * env.m) _ env.n0 s3
                ?_ (by omega) s' hmem
              intro i' hi'
              rw [List.mem_range'_1] at hi'
              omega
          · intro hempty herr
            subst hempty
            have herr2 : (runObjectsT env (3 * env.m)
                (List.range' (emptyStore.prog.getD 0)
                  (env.n - emptyStore.prog.getD 0)) s3).err = none := herr
            have hz : emptyStore.prog.getD 0 = 0 := rfl
            constructor
            · have hp := runObjectsT_success_prog env (3 * env.m)
                (env.n - emptyStore.prog.getD 0) (emptyStore.prog.getD 0) s3
                (by rw [hs3prog]) herr2
              show (runObjectsT env (3 * env.m)
                (List.range' (emptyStore.prog.getD 0)
                  (env.n - emptyStore.prog.getD 0)) s3).state.prog.getD 0 = env.n0
              omega
            · have hml := runObjectsT_success_maxlen env (3 * env.m) _ s3 herr2
              have hs3ml : s3.max_len.getD 0 = 0 := by
                rw [hq2]
                rfl
              have hrange : List.range' (emptyStore.prog.getD 0)
                  (env.n - emptyStore.prog.getD 0) = List.range env.n0 := by
                show List.range' 0 (env.n - 0) = List.range env.n0
                rw [Nat.sub_zero, hnn, List.range_eq_range']
              show (runObjectsT env (3 * env.m)
                (List.range' (emptyStore.prog.getD 0)
                  (env.n - emptyStore.prog.getD 0)) s3).state.max_len.getD 0 =
                maxEncLen env
              rw [hml, hs3ml, hrange]
              rfl

/-- C5 witness: the single-object environment instantiates the monotonicity
and completion statement. -/
theorem maxlen_prog_monotone_and_complete_witness :
    (emptyStore.prog.getD 0 ≤ envOk.n0) ∧
    ((create_temp_frustrum_voxels envOk emptyStore).err = none) ∧
    (List.Chain' stepRel
        (emptyStore :: (create_temp_frustrum_voxels envOk emptyStore).trace) ∧
      (∀ s' ∈ (create_temp_frustrum_voxels envOk emptyStore).trace,
        s'.prog.getD 0 ≤ envOk.n0) ∧
      ((create_temp_frustrum_voxels envOk emptyStore).state.prog.getD 0 =
          envOk.n0 ∧
        (create_temp_frustrum_voxels envOk emptyStore).state.max_len.getD 0 =
          maxEncLen envOk)) := by
  have h := maxlen_prog_monotone_and_complete envOk emptyStore (by decide)
  exact ⟨by decide, by decide, h.1, h.2.1, h.2.2 rfl (by decide)⟩

/-- C2: running the Temp Accumulator from a fresh store, interrupting right
after the commit of object `k`, and re-running to completion produces exactly
the intermediate store (state and outcome, hence the same shrunk final
store) of a single uninterrupted run — and the re-run resumes the object loop
at index `prog = k`, never regressing to an earlier object in any persisted
state. -/
theorem interrupted_resume_reaches_same_store :
    ∀ (env : Env) (k : Nat), k ≤ env.n0 →
    (create_temp_upTo env k emptyStore).err = none →
    (create_temp_frustrum_voxels env
        (create_temp_upTo env k emptyStore).state).state =
      (create_temp_frustrum_voxels env emptyStore).state ∧
    (create_temp_frustrum_voxels env
        (create_temp_upTo env k emptyStore).state).err =
      (create_temp_frustrum_voxels env emptyStore).err ∧
    (∀ cs, _shrink_data cs (create_temp_frustrum_voxels env
        (create_temp_upTo env k emptyStore).state).state =
      _shrink_data cs (create_temp_frustrum_voxels env emptyStore).state) ∧
    (∀ s' ∈ (create_temp_frustrum_voxels env
        (create_temp_upTo env k emptyStore).state).trace,
      k ≤ s'.prog.getD 0) := by
  intro env k hk hup
  by_cases h0 : emptyStore.prog.getD 0 = env.n0
  · have hupeq : create_temp_upTo env k emptyStore = ⟨[], emptyStore, none⟩ := by
      unfold create_temp_upTo
      dsimp only
      rw [if_pos h0]
    have hk0 : k = 0 := by
      have h0z : (0 : Nat) = env.n0 := h0
      omega
    rw [hupeq]
    exact ⟨rfl, rfl, fun cs => rfl, fun s' _ => by omega⟩
  · by_cases hD2 : env.hasDataset = false
    · exfalso
      unfold create_temp_upTo at hup
      dsimp only at hup
      rw [if_neg h0, if_pos hD2] at hup
      simp at hup
    by_cases hDn : env.n ≠ env.n0
    · exfalso
      unfold create_temp_upTo at hup
      dsimp only at hup
      rw [if_neg h0, if_neg hD2, if_pos hDn] at hup
      simp at hup
    have hnn : env.n = env.n0 := not_not.1 hDn
    have hbackS : (create_temp_upTo env k emptyStore).state =
        (runObjectsT env (3 * env.m) (List.range' 0 k) (s3e env)).state := by
      unfold create_temp_upTo
      dsimp only
      rw [if_neg h0, if_neg hD2, if_neg hDn]
      rfl
    have hbackE : (create_temp_upTo env k emptyStore).err =
        (runObjectsT env (3 * env.m) (List.range' 0 k) (s3e env)).err := by
      unfold create_temp_upTo
      dsimp only
      rw [if_neg h0, if_neg hD2, if_neg hDn]
      rfl
    have hstraightS : (create_temp_frustrum_voxels env emptyStore).state =
        (runObjectsT env (3 * env.m) (List.range' 0 env.n) (s3e env)).state := by
      unfold create_temp_frustrum_voxels
      dsimp only
      rw [if_neg h0, if_neg hD2, if_neg hDn]
      rfl
    have hstraightE : (create_temp_frustrum_voxels env emptyStore).err =
        (runObjectsT env (3 * env.m) (List.range' 0 env.n) (s3e env)).err := by
      unfold create_temp_frustrum_voxels
      dsimp only
      rw [if_neg h0, if_neg hD2, if_neg hDn]
      rfl
    have hup2 : (runObjectsT env (3 * env.m) (List.range' 0 k) (s3e env)).err =
        none := by
      rw [← hbackE]
      exact hup
    rw [hbackS]
    have hskprog : (runObjectsT env (3 * env.m) (List.range' 0 k)
        (s3e env)).state.prog.getD 0 = k := by
      have := runObjectsT_success_prog env (3 * env.m) k 0 (s3e env) rfl hup2
      omega
    have hsknr : (runObjectsT env (3 * env.m) (List.range' 0 k)
        (s3e env)).state.n_renderings = some env.n_renderings := by
      rw [(runObjectsT_state_attrs env (3 * env.m) (List.range' 0 k) (s3e env)).1]
      rfl
    have hskshape : (runObjectsT env (3 * env.m) (List.range' 0 k)
        (s3e env)).state.dataShape =
        some (env.n, env.n_renderings, 3 * env.m) := by
      rw [(runObjectsT_state_attrs env (3 * env.m) (List.range' 0 k) (s3e env)).2]
      rfl
    have hskml : ∃ w, (runObjectsT env (3 * env.m) (List.range' 0 k)
        (s3e env)).state.max_len = some w := by
      have := runObjectsT_maxlen_isSome env (3 * env.m) (List.range' 0 k)
        (s3e env) rfl
      exact Option.isSome_iff_exists.1 this
    by_cases hkn : k = env.n0
    · have hres : create_temp_frustrum_voxels env
          (runObjectsT env (3 * env.m) (List.range' 0 k) (s3e env)).state =
          ⟨[], (runObjectsT env (3 * env.m) (List.range' 0 k) (s3e env)).state,
            none⟩ := by
        unfold create_temp_frustrum_voxels
        dsimp only
        rw [if_pos (by rw [hskprog]; exact hkn)]
      have hneqk : env.n = k := by omega
      have h1 : (create_temp_frustrum_voxels env
          (runObjectsT env (3 * env.m) (List.range' 0 k) (s3e env)).state).state =
          (create_temp_frustrum_voxels env emptyStore).state := by
        rw [hres, hstraightS, hneqk]
      have h2 : (create_temp_frustrum_voxels env
          (runObjectsT env (3 * env.m) (List.range' 0 k) (s3e env)).state).err =
          (create_temp_frustrum_voxels env emptyStore).err := by
        rw [hres, hstraightE, hneqk]
        exact hup2.symm
      refine ⟨h1, h2, fun cs => by rw [h1], ?_⟩
      intro s' hs'
      rw [hres] at hs'
      simp at hs'
    · obtain ⟨w, hw⟩ := hskml
      have hs1 := setdefault_nr_noop env _ hsknr
      have hs2 := setdefault_s2_noop env _ w hsknr hw
      have hreq2 : requireDataset
          (runObjectsT env (3 * env.m) (List.range' 0 k) (s3e env)).state
          (env.n, env.n_renderings, 3 * env.m) =
          some (runObjectsT env (3 * env.m) (List.range' 0 k) (s3e env)).state := by
        unfold requireDataset
        rw [hskshape]
        dsimp only
        rw [if_pos rfl]
      have hres : create_temp_frustrum_voxels env
          (runObjectsT env (3 * env.m) (List.range' 0 k) (s3e env)).state =
          ⟨(runObjectsT env (3 * env.m) (List.range' 0 k) (s3e env)).state ::
            (runObjectsT env (3 * env.m) (List.range' 0 k) (s3e env)).state ::
            (runObjectsT env (3 * env.m) (List.range' 0 k) (s3e env)).state ::
            (runObjectsT env (3 * env.m) (List.range' k (env.n - k))
              (runObjectsT env (3 * env.m) (List.range' 0 k) (s3e env)).state).trace,
           (runObjectsT env (3 * env.m) (List.range' k (env.n - k))
             (runObjectsT env (3 * env.m) (List.range' 0 k) (s3e env)).state).state,
           (runObjectsT env (3 * env.m) (List.range' k (env.n - k))
             (runObjectsT env (3 * env.m) (List.range' 0 k) (s3e env)).state).err⟩ := by
        unfold create_temp_frustrum_voxels
        dsimp only
        rw [if_neg (show ¬ (runObjectsT env (3 * env.m) (List.range' 0 k)
          (s3e env)).state.prog.getD 0 = env.n0 by rw [hskprog]; exact hkn)]
        rw [hs1, hs2, if_neg hD2, if_neg hDn, hreq2]
        dsimp only
        rw [hskprog]
      have happ := runObjectsT_append_err_none env (3 * env.m)
        (List.range' 0 k) (List.range' k (env.n - k)) (s3e env) hup2
      have hsplit : List.range' 0 k ++ List.range' k (env.n - k) =
          List.range' 0 env.n := by
        have h := List.range'_append 0 k (env.n - k) 1
        simp at h
        rw [show env.n - k + k = env.n from by omega] at h
        exact h
      have h1 : (create_temp_frustrum_voxels env
          (runObjectsT env (3 * env.m) (List.range' 0 k) (s3e env)).state).state =
          (create_temp_frustrum_voxels env emptyStore).state := by
        rw [hres, hstraightS, ← hsplit, happ.1]
      have h2 : (create_temp_frustrum_voxels env
          (runObjectsT env (3 * env.m) (List.range' 0 k) (s3e env)).state).err =
          (create_temp_frustrum_voxels env emptyStore).err := by
        rw [hres, hstraightE, ← hsplit, happ.2]
      refine ⟨h1, h2, fun cs => by rw [h1], ?_⟩
      intro s' hs'
      rw [hres] at hs'
      simp only [List.mem_cons] at hs'
      rcases hs' with rfl | rfl | rfl | hmem
      · omega
      · omega
      · omega
      · exact runObjectsT_trace_prog_lb env (3 * env.m) (env.n - k) k
          (runObjectsT env (3 * env.m) (List.range' 0 k) (s3e env)).state
          hskprog s' hmem

/-- C2 witness: interrupting the single-object run after its only commit and
re-running reproduces the uninterrupted run. -/
theorem interrupted_resume_reaches_same_store_witness :
    (1 ≤ envOk.n0) ∧
    ((create_temp_upTo envOk 1 emptyStore).err = none) ∧
    ((create_temp_frustrum_voxels envOk
        (create_temp_upTo envOk 1 emptyStore).state).state =
      (create_temp_frustrum_voxels envOk emptyStore).state ∧
    (create_temp_frustrum_voxels envOk
        (create_temp_upTo envOk 1 emptyStore).state).err =
      (create_temp_frustrum_voxels envOk emptyStore).err ∧
    (∀ cs, _shrink_data cs (create_temp_frustrum_voxels envOk
        (create_temp_upTo envOk 1 emptyStore).state).state =
      _shrink_data cs (create_temp_frustrum_voxels envOk emptyStore).state) ∧
    (∀ s' ∈ (create_temp_frustrum_voxels envOk
        (create_temp_upTo envOk 1 emptyStore).state).trace,
      1 ≤ s'.prog.getD 0)) :=
  ⟨by decide, by decide,
   interrupted_resume_reaches_same_store envOk 1 (by decide) (by decide)⟩
